import Mathlib

/-!
# Shell32 bindings of `w32` (`shell32.go`)

A shallow embedding of the wrappers `ShellExecute`, `DragQueryFile` and
`DragQueryPoint`, together with the string conversions they rely on at the
wide-character boundary.

* A Go `string` is its sequence of bytes (`GoString`), a `[]uint16` buffer is a
  list of code units, an `uintptr` is a natural number.
* A native entry point is a parameter of the wrapper that calls it. A wrapper
  that can panic returns an `Outcome`: the native calls it made and either its
  Go results or the message of the panic that ended it.
* `int`, `uint` and `uintptr` have the width of the target architecture
  (`Arch`); arithmetic that can wrap is taken modulo `2 ^ bits`.
-/

namespace W32

/-! ## Machine words -/

/-- Target architectures of the Windows port of Go: 32-bit and 64-bit words. -/
inductive Arch
  | i386
  | amd64
  deriving DecidableEq

/-- Width in bits of `int`, `uint` and `uintptr`. -/
def Arch.bits : Arch → Nat
  | .i386 => 32
  | .amd64 => 64

/-- Go conversion `uintptr(i)` of an `int`: the same bits read as unsigned. -/
def intToUintptr (a : Arch) (i : Int) : Nat :=
  (i % ((2 ^ a.bits : Nat) : Int)).toNat

/-- Go conversion `int(u)` of an `uintptr`: the same bits read as signed. -/
def uintptrToInt (a : Arch) (u : Nat) : Int :=
  if u % 2 ^ a.bits < 2 ^ (a.bits - 1) then ((u % 2 ^ a.bits : Nat) : Int)
  else ((u % 2 ^ a.bits : Nat) : Int) - ((2 ^ a.bits : Nat) : Int)

/-- What a Go function call ends in: its results, or a panic with a message. -/
inductive Result (α : Type)
  | ok (v : α)
  | panic (msg : String)
  deriving DecidableEq

/-- Go conversion `byte(x)`. -/
def byte (x : Nat) : Nat := x % 256

/-- Go conversion `uint16(x)`. -/
def uint16 (x : Nat) : Nat := x % 65536

/-! ## Strings and the UTF-8 / UTF-16 conversions

The conversions are functions of the Go runtime and standard library
(`runtime/utf8.go`, `unicode/utf16`, `syscall`); `shell32.go` only calls them.
-/

/-- A Go `string`: a sequence of bytes. -/
abbrev GoString := List Nat

def runeError : Nat := 0xFFFD
def runeSelf : Nat := 0x80
def maxRune : Nat := 0x10FFFF
def surrogateMin : Nat := 0xD800
def surrogateMax : Nat := 0xDFFF
def rune1Max : Nat := 0x7F
def rune2Max : Nat := 0x7FF
def rune3Max : Nat := 0xFFFF
def t2 : Nat := 0xC0
def t3 : Nat := 0xE0
def t4 : Nat := 0xF0
def t5 : Nat := 0xF8
def tx : Nat := 0x80
def maskx : Nat := 0x3F
def mask2 : Nat := 0x1F
def mask3 : Nat := 0x0F
def mask4 : Nat := 0x07
def locb : Nat := 0x80
def hicb : Nat := 0xBF

/-- Modelled from the spec: `decoderune` of the Go runtime (not part of
`shell32.go`), the decoder behind `range` over a string and `[]rune(s)`. It
reads the sequence starting at the head of `s`, whose first byte is not ASCII,
and returns the rune and the number of bytes consumed; an encoding error gives
`runeError` and width 1. -/
def decoderune (s : GoString) : Nat × Nat :=
  let s0 := s.getD 0 0
  let s1 := s.getD 1 0
  let s2 := s.getD 2 0
  let s3 := s.getD 3 0
  if s.length = 0 then (runeError, 1)
  else if t2 ≤ s0 ∧ s0 < t3 then
    if 1 < s.length ∧ (locb ≤ s1 ∧ s1 ≤ hicb) then
      let r := ((s0 &&& mask2) <<< 6) ||| (s1 &&& maskx)
      if rune1Max < r then (r, 2) else (runeError, 1)
    else (runeError, 1)
  else if t3 ≤ s0 ∧ s0 < t4 then
    if 2 < s.length ∧ (locb ≤ s1 ∧ s1 ≤ hicb) ∧ (locb ≤ s2 ∧ s2 ≤ hicb) then
      let r := ((s0 &&& mask3) <<< 12) ||| ((s1 &&& maskx) <<< 6) ||| (s2 &&& maskx)
      if rune2Max < r ∧ ¬ (surrogateMin ≤ r ∧ r ≤ surrogateMax) then (r, 3)
      else (runeError, 1)
    else (runeError, 1)
  else if t4 ≤ s0 ∧ s0 < t5 then
    if 3 < s.length ∧ (locb ≤ s1 ∧ s1 ≤ hicb) ∧ (locb ≤ s2 ∧ s2 ≤ hicb)
        ∧ (locb ≤ s3 ∧ s3 ≤ hicb) then
      let r := ((s0 &&& mask4) <<< 18) ||| ((s1 &&& maskx) <<< 12)
        ||| ((s2 &&& maskx) <<< 6) ||| (s3 &&& maskx)
      if rune3Max < r ∧ r ≤ maxRune then (r, 4) else (runeError, 1)
    else (runeError, 1)
  else (runeError, 1)

/-- Modelled from the spec: `encoderune` of the Go runtime (not part of
`shell32.go`): the UTF-8 bytes of a rune, surrogates and values above
`maxRune` being written as `runeError`. -/
def encoderune (r : Nat) : GoString :=
  if r ≤ rune1Max then [byte r]
  else if r ≤ rune2Max then [t2 ||| byte (r >>> 6), tx ||| (byte r &&& maskx)]
  else if r > maxRune ∨ (surrogateMin ≤ r ∧ r ≤ surrogateMax) then
    [t3 ||| byte (runeError >>> 12), tx ||| (byte (runeError >>> 6) &&& maskx),
      tx ||| (byte runeError &&& maskx)]
  else if r ≤ rune3Max then
    [t3 ||| byte (r >>> 12), tx ||| (byte (r >>> 6) &&& maskx), tx ||| (byte r &&& maskx)]
  else
    [t4 ||| byte (r >>> 18), tx ||| (byte (r >>> 12) &&& maskx),
      tx ||| (byte (r >>> 6) &&& maskx), tx ||| (byte r &&& maskx)]

/-- Loop of `stringToRunes`; every iteration consumes at least one byte, so
`s.length` iterations always suffice. -/
def runesLoop : Nat → GoString → List Nat
  | 0, _ => []
  | _ + 1, [] => []
  | n + 1, c :: t =>
    if c < runeSelf then c :: runesLoop n t
    else (decoderune (c :: t)).1 :: runesLoop n ((c :: t).drop (decoderune (c :: t)).2)

/-- Modelled from the spec: the Go conversion `[]rune(s)` (a `range` loop over
`s`; not part of `shell32.go`). -/
def stringToRunes (s : GoString) : List Nat := runesLoop s.length s

/-- Modelled from the spec: the Go conversion `string(runes)` (not part of
`shell32.go`): the concatenated UTF-8 encodings of the runes. -/
def runesToString (rs : List Nat) : GoString := rs.flatMap encoderune

/-- Loop of `validString`, with the same bound as `runesLoop`. -/
def validLoop : Nat → GoString → Bool
  | 0, s => s.isEmpty
  | _ + 1, [] => true
  | n + 1, c :: t =>
    if c < runeSelf then validLoop n t
    else if (decoderune (c :: t)).2 = 1 then false
    else validLoop n ((c :: t).drop (decoderune (c :: t)).2)

/-- Modelled from the spec: `utf8.ValidString` of the Go standard library (not
part of `shell32.go`): `s` consists entirely of valid UTF-8 sequences, that is,
no position of `s` decodes to an encoding error. -/
def validString (s : GoString) : Bool := validLoop s.length s

def surr1 : Nat := 0xD800
def surr2 : Nat := 0xDC00
def surr3 : Nat := 0xE000
def surrSelf : Nat := 0x10000
def replacementChar : Nat := 0xFFFD

/-- Modelled from the spec: `utf16.EncodeRune` of the Go standard library (not
part of `shell32.go`): the surrogate pair of a rune. -/
def EncodeRune (r : Nat) : Nat × Nat :=
  if r < surrSelf ∨ r > maxRune then (replacementChar, replacementChar)
  else (surr1 + (((r - surrSelf) >>> 10) &&& 0x3FF), surr2 + ((r - surrSelf) &&& 0x3FF))

/-- Modelled from the spec: `utf16.DecodeRune` of the Go standard library (not
part of `shell32.go`): the rune of a surrogate pair. -/
def DecodeRune (r1 r2 : Nat) : Nat :=
  if surr1 ≤ r1 ∧ r1 < surr2 ∧ surr2 ≤ r2 ∧ r2 < surr3 then
    (((r1 - surr1) <<< 10) ||| (r2 - surr2)) + surrSelf
  else replacementChar

/-- Modelled from the spec: `utf16.Encode` of the Go standard library (not part
of `shell32.go`): the UTF-16 code units of a sequence of runes. -/
def utf16Encode : List Nat → List Nat
  | [] => []
  | v :: s =>
    if v < surr1 ∨ (surr3 ≤ v ∧ v < surrSelf) then uint16 v :: utf16Encode s
    else if surrSelf ≤ v ∧ v ≤ maxRune then
      uint16 (EncodeRune v).1 :: uint16 (EncodeRune v).2 :: utf16Encode s
    else uint16 replacementChar :: utf16Encode s

/-- Modelled from the spec: `utf16.Decode` of the Go standard library (not part
of `shell32.go`): the runes of a sequence of UTF-16 code units, an unpaired
surrogate giving `replacementChar`. -/
def utf16Decode : List Nat → List Nat
  | [] => []
  | [r] => if r < surr1 ∨ surr3 ≤ r then [r] else [replacementChar]
  | r :: r2 :: s =>
    if r < surr1 ∨ surr3 ≤ r then r :: utf16Decode (r2 :: s)
    else if surr1 ≤ r ∧ r < surr2 ∧ surr2 ≤ r2 ∧ r2 < surr3 then
      DecodeRune r r2 :: utf16Decode s
    else replacementChar :: utf16Decode (r2 :: s)

/-- Modelled from the spec: `syscall.UTF16FromString` (not part of
`shell32.go`): the UTF-16 encoding of `s` with a terminating NUL added, or no
result when `s` contains a NUL byte. -/
def UTF16FromString (s : GoString) : Option (List Nat) :=
  if 0 ∈ s then none else some (utf16Encode (stringToRunes (s ++ [0])))

/-- Modelled from the spec: `syscall.StringToUTF16` (not part of `shell32.go`):
as `UTF16FromString`, with a panic in place of the error. -/
def StringToUTF16 (s : GoString) : Result (List Nat) :=
  match UTF16FromString s with
  | some a => .ok a
  | none => .panic "syscall: string with NUL passed to StringToUTF16"

/-- Modelled from the spec: `syscall.UTF16ToString` (not part of
`shell32.go`): the string of the code units of `s` before its first NUL (all of
`s` when it has none). -/
def UTF16ToString (s : List Nat) : GoString :=
  runesToString (utf16Decode (s.takeWhile (fun v => v != 0)))

/-! ## Native calls -/

/-- One word of the argument list of a native call: a plain `uintptr` value
(the null pointer is `word 0`), or the address of a live `[]uint16` buffer,
identified with the contents of the buffer at the time of the call. -/
inductive Arg
  | word (n : Nat)
  | ptr (units : List Nat)
  deriving DecidableEq

/-- What a native call gives back: the value of the return register and the
code units it stored through the buffer pointer it was handed, if any. -/
structure Reply where
  ret : Nat
  mem : List Nat
  deriving DecidableEq

/-- A run of a wrapper: the native calls made, in order, each with its argument
list and return value, and how the wrapper ended. -/
structure Outcome (α : Type) where
  calls : List (List Arg × Nat)
  result : Result α
  deriving DecidableEq

/-- Contents of a buffer after a callee stored `mem` from its start; stores do
not reach past the end of the buffer. -/
def store (buf mem : List Nat) : List Nat :=
  (mem ++ buf.drop mem.length).take buf.length

/-- Modelled from the spec: `syscall.StringToUTF16Ptr` (not part of
`shell32.go`): the address of the first unit of `StringToUTF16 s`. -/
def StringToUTF16Ptr (s : GoString) : Result Arg :=
  match StringToUTF16 s with
  | .ok a => .ok (.ptr a)
  | .panic m => .panic m

/-! ## Constants and types declared outside `shell32.go` -/

/-! The pseudo-handle codes of `ShellExecute` are declared in another file of
the package; their values are those of the Windows headers. -/

/-- Modelled from the spec: the missing constant `ERROR_FILE_NOT_FOUND`. -/
def ERROR_FILE_NOT_FOUND : Int := 2
/-- Modelled from the spec: the missing constant `ERROR_PATH_NOT_FOUND`. -/
def ERROR_PATH_NOT_FOUND : Int := 3
/-- Modelled from the spec: the missing constant `ERROR_BAD_FORMAT`. -/
def ERROR_BAD_FORMAT : Int := 11
/-- Modelled from the spec: the missing constant `SE_ERR_ACCESSDENIED`. -/
def SE_ERR_ACCESSDENIED : Int := 5
/-- Modelled from the spec: the missing constant `SE_ERR_OOM`. -/
def SE_ERR_OOM : Int := 8
/-- Modelled from the spec: the missing constant `SE_ERR_DLLNOTFOUND`. -/
def SE_ERR_DLLNOTFOUND : Int := 32
/-- Modelled from the spec: the missing constant `SE_ERR_SHARE`. -/
def SE_ERR_SHARE : Int := 26
/-- Modelled from the spec: the missing constant `SE_ERR_ASSOCINCOMPLETE`. -/
def SE_ERR_ASSOCINCOMPLETE : Int := 27
/-- Modelled from the spec: the missing constant `SE_ERR_DDETIMEOUT`. -/
def SE_ERR_DDETIMEOUT : Int := 28
/-- Modelled from the spec: the missing constant `SE_ERR_DDEFAIL`. -/
def SE_ERR_DDEFAIL : Int := 29
/-- Modelled from the spec: the missing constant `SE_ERR_DDEBUSY`. -/
def SE_ERR_DDEBUSY : Int := 30
/-- Modelled from the spec: the missing constant `SE_ERR_NOASSOC`. -/
def SE_ERR_NOASSOC : Int := 31

/-- Modelled from the spec: the structure `POINT`, declared in another file of
the package: two signed 32-bit coordinates. -/
structure POINT where
  X : Int
  Y : Int
  deriving DecidableEq

/-! ## The wrappers of `shell32.go` -/

/-- `DragQueryFile(hDrop, iFile)`. `native` is the entry point
`DragQueryFileW`, a transition of the state `σ` of the outside world; `alloc n`
tells whether the runtime grants `make([]uint16, n)` for `n > 0` (it refuses a
length that is out of range for the platform). The length `fileCount+1` is
computed in `uint` and wraps; taking `&buf[0]` of an empty slice panics. Results
are `(fileName, fileCount)`. -/
def DragQueryFile {σ : Type} (a : Arch) (alloc : Nat → Bool)
    (native : σ → List Arg → Reply × σ) (st : σ) (hDrop iFile : Nat) :
    Outcome (GoString × Nat) :=
  let args1 := [Arg.word hDrop, Arg.word iFile, Arg.word 0, Arg.word 0]
  let r1 := native st args1
  let fileCount := r1.1.ret
  if iFile ≠ 0xFFFFFFFF then
    let n := (fileCount + 1) % 2 ^ a.bits
    if n ≠ 0 ∧ alloc n = false then
      ⟨[(args1, r1.1.ret)], .panic "runtime error: makeslice: len out of range"⟩
    else
      let buf := List.replicate n 0
      if n = 0 then
        ⟨[(args1, r1.1.ret)], .panic "runtime error: index out of range [0] with length 0"⟩
      else
        let args2 := [Arg.word hDrop, Arg.word iFile, Arg.ptr buf, Arg.word n]
        let r2 := native r1.2 args2
        if r2.1.ret = 0 then
          ⟨[(args1, r1.1.ret), (args2, r2.1.ret)], .panic "Invoke DragQueryFile error."⟩
        else
          ⟨[(args1, r1.1.ret), (args2, r2.1.ret)],
            .ok (UTF16ToString (store buf r2.1.mem), fileCount)⟩
  else ⟨[(args1, r1.1.ret)], .ok ([], fileCount)⟩

/-- `DragQueryPoint(hDrop)`. `native` is the entry point `DragQueryPoint`: from
the handle and the `POINT` it is pointed to, its return value and the `POINT`
as it leaves it. Results are `(x, y, isClientArea)`; `int(pt.X)` widens a signed
32-bit value and keeps it. -/
def DragQueryPoint (native : Nat → POINT → Nat × POINT) (hDrop : Nat) : Int × Int × Bool :=
  let pt : POINT := ⟨0, 0⟩
  let r := native hDrop pt
  (r.2.X, r.2.Y, r.1 == 1)

/-- The value of the variable `errorMsg` of `ShellExecute` after its `switch`
on `code = int(ret)`; `fmt.Sprintf` with `%v` writes the `uintptr` `ret` in
decimal. -/
def errorMsg (code : Int) (ret : Nat) : String :=
  if code = ERROR_FILE_NOT_FOUND then
    "The specified file was not found."
  else if code = ERROR_PATH_NOT_FOUND then
    "The specified path was not found."
  else if code = ERROR_BAD_FORMAT then
    "The .exe file is invalid (non-Win32 .exe or error in .exe image)."
  else if code = SE_ERR_ACCESSDENIED then
    "The operating system denied access to the specified file."
  else if code = SE_ERR_ASSOCINCOMPLETE then
    "The file name association is incomplete or invalid."
  else if code = SE_ERR_DDEBUSY then
    "The DDE transaction could not be completed because other DDE transactions were being processed."
  else if code = SE_ERR_DDEFAIL then
    "The DDE transaction failed."
  else if code = SE_ERR_DDETIMEOUT then
    "The DDE transaction could not be completed because the request timed out."
  else if code = SE_ERR_DLLNOTFOUND then
    "The specified DLL was not found."
  else if code = SE_ERR_NOASSOC then
    "There is no application associated with the given file name extension. This error will also be returned if you attempt to print a file that is not printable."
  else if code = SE_ERR_OOM then
    "There was not enough memory to complete the operation."
  else if code = SE_ERR_SHARE then
    "A sharing violation occurred."
  else
    "Unknown error occurred with error code " ++ Nat.repr ret

/-- `ShellExecute(hwnd, lpOperation, lpFile, lpParameters, lpDirectory,
nShowCmd)`. `native` is the entry point `ShellExecuteW`. The result is the
returned `error`: `none` for `nil`, `some msg` for `errors.New(msg)`. -/
def ShellExecute (a : Arch) (native : List Arg → Nat) (hwnd : Nat)
    (lpOperation lpFile lpParameters lpDirectory : GoString) (nShowCmd : Int) :
    Outcome (Option String) :=
  match (if lpOperation.length ≠ 0 then StringToUTF16Ptr lpOperation
      else Result.ok (Arg.word 0)) with
  | .panic m => ⟨[], .panic m⟩
  | .ok op =>
  match (if lpParameters.length ≠ 0 then StringToUTF16Ptr lpParameters
      else Result.ok (Arg.word 0)) with
  | .panic m => ⟨[], .panic m⟩
  | .ok param =>
  match (if lpDirectory.length ≠ 0 then StringToUTF16Ptr lpDirectory
      else Result.ok (Arg.word 0)) with
  | .panic m => ⟨[], .panic m⟩
  | .ok directory =>
  match StringToUTF16Ptr lpFile with
  | .panic m => ⟨[], .panic m⟩
  | .ok file =>
    let args := [Arg.word hwnd, op, file, param, directory,
      Arg.word (intToUintptr a nShowCmd)]
    let ret := native args
    if ret ≠ 0 ∧ ret ≤ 32 then
      ⟨[(args, ret)], .ok (some (errorMsg (uintptrToInt a ret) ret))⟩
    else ⟨[(args, ret)], .ok none⟩

/-- Modelled from the spec: the native `DragQueryFileW` for a drop whose files
have the wide names `names` (code units without NUL). The sentinel index gives
the number of files; a valid index with a null buffer gives the length of the
name in characters; a valid index with a buffer of capacity `cch` copies at most
`cch - 1` characters and a terminating NUL and gives the number of characters
copied; any other index gives 0. -/
def dropNative (names : List (List Nat)) : Unit → List Arg → Reply × Unit
  | _, [Arg.word _, Arg.word iFile, lpszFile, Arg.word cch] =>
    if iFile = 0xFFFFFFFF then (⟨names.length, []⟩, ())
    else
      match names[iFile]? with
      | none => (⟨0, []⟩, ())
      | some name =>
        match lpszFile with
        | Arg.word _ => (⟨name.length, []⟩, ())
        | Arg.ptr _ =>
          if cch = 0 then (⟨0, []⟩, ())
          else (⟨min name.length (cch - 1), name.take (cch - 1) ++ [0]⟩, ())
  | _, _ => (⟨0, []⟩, ())

/-- Wide form of the Go string `s`: its UTF-16 code units, without terminator. -/
def wideName (s : GoString) : List Nat := utf16Encode (stringToRunes s)

/-- A rune is a Unicode scalar value: at most `maxRune` and not a surrogate. -/
def isScalar (r : Nat) : Prop := r ≤ maxRune ∧ ¬ (surrogateMin ≤ r ∧ r ≤ surrogateMax)

instance : DecidablePred isScalar := fun r => by unfold isScalar; infer_instance

/-! ## Bit operations as arithmetic -/

theorem and_maskx (x : Nat) : x &&& maskx = x % 64 := Nat.and_pow_two_sub_one_eq_mod x 6
theorem and_mask2 (x : Nat) : x &&& mask2 = x % 32 := Nat.and_pow_two_sub_one_eq_mod x 5
theorem and_mask3 (x : Nat) : x &&& mask3 = x % 16 := Nat.and_pow_two_sub_one_eq_mod x 4
theorem and_mask4 (x : Nat) : x &&& mask4 = x % 8 := Nat.and_pow_two_sub_one_eq_mod x 3
theorem and_0x3FF (x : Nat) : x &&& 0x3FF = x % 1024 := Nat.and_pow_two_sub_one_eq_mod x 10

theorem or_eq_add (k a b : Nat) (h : b < 2 ^ k) : (a * 2 ^ k) ||| b = a * 2 ^ k + b := by
  rw [Nat.mul_comm, Nat.mul_add_lt_is_or h]

theorem dec2 (s0 s1 : Nat) :
    ((s0 &&& mask2) <<< 6) ||| (s1 &&& maskx) = s0 % 32 * 64 + s1 % 64 := by
  rw [and_mask2, and_maskx, Nat.shiftLeft_eq]
  exact or_eq_add 6 _ (s1 % 64) (show s1 % 64 < 2 ^ 6 from Nat.mod_lt _ (by norm_num))

theorem dec3 (s0 s1 s2 : Nat) :
    ((s0 &&& mask3) <<< 12) ||| ((s1 &&& maskx) <<< 6) ||| (s2 &&& maskx)
      = s0 % 16 * 4096 + s1 % 64 * 64 + s2 % 64 := by
  rw [and_mask3, and_maskx, and_maskx, Nat.shiftLeft_eq, Nat.shiftLeft_eq]
  have h1 : s0 % 16 * 2 ^ 12 ||| s1 % 64 * 2 ^ 6 = s0 % 16 * 2 ^ 12 + s1 % 64 * 2 ^ 6 :=
    or_eq_add 12 _ _ (by have := Nat.mod_lt s1 (show 0 < 64 by norm_num); omega)
  rw [h1]
  have h2 : s0 % 16 * 2 ^ 12 + s1 % 64 * 2 ^ 6 = (s0 % 16 * 64 + s1 % 64) * 2 ^ 6 := by ring
  rw [h2, or_eq_add 6 _ (s2 % 64) (show s2 % 64 < 2 ^ 6 from Nat.mod_lt _ (by norm_num))]
  ring

theorem dec4 (s0 s1 s2 s3 : Nat) :
    ((s0 &&& mask4) <<< 18) ||| ((s1 &&& maskx) <<< 12) ||| ((s2 &&& maskx) <<< 6)
        ||| (s3 &&& maskx)
      = s0 % 8 * 262144 + s1 % 64 * 4096 + s2 % 64 * 64 + s3 % 64 := by
  rw [and_mask4, and_maskx, and_maskx, and_maskx, Nat.shiftLeft_eq, Nat.shiftLeft_eq,
    Nat.shiftLeft_eq]
  have h1 : s0 % 8 * 2 ^ 18 ||| s1 % 64 * 2 ^ 12 = s0 % 8 * 2 ^ 18 + s1 % 64 * 2 ^ 12 :=
    or_eq_add 18 _ _ (by have := Nat.mod_lt s1 (show 0 < 64 by norm_num); omega)
  rw [h1]
  have h2 : s0 % 8 * 2 ^ 18 + s1 % 64 * 2 ^ 12 = (s0 % 8 * 64 + s1 % 64) * 2 ^ 12 := by ring
  rw [h2, or_eq_add 12 _ _ (by have := Nat.mod_lt s2 (show 0 < 64 by norm_num); omega)]
  have h3 : (s0 % 8 * 64 + s1 % 64) * 2 ^ 12 + s2 % 64 * 2 ^ 6
      = ((s0 % 8 * 64 + s1 % 64) * 64 + s2 % 64) * 2 ^ 6 := by ring
  rw [h3, or_eq_add 6 _ (s3 % 64) (show s3 % 64 < 2 ^ 6 from Nat.mod_lt _ (by norm_num))]
  ring

theorem or_tx (x : Nat) (h : x < 64) : tx ||| x = 128 + x := by
  have := or_eq_add 6 2 x (by simpa using h)
  simpa [tx] using this

theorem or_t2 (x : Nat) (h : x < 64) : t2 ||| x = 192 + x := by
  have := or_eq_add 6 3 x (by simpa using h)
  simpa [t2] using this

theorem or_t3 (x : Nat) (h : x < 16) : t3 ||| x = 224 + x := by
  have := or_eq_add 4 14 x (by simpa using h)
  simpa [t3] using this

theorem or_t4 (x : Nat) (h : x < 8) : t4 ||| x = 240 + x := by
  have := or_eq_add 3 30 x (by simpa using h)
  simpa [t4] using this

/-! ## UTF-8: what `encoderune` writes and what `decoderune` reads -/

theorem encoderune1 (r : Nat) (h : r ≤ rune1Max) : encoderune r = [r] := by
  have : r % 256 = r := by simp only [rune1Max] at h; omega
  simp [encoderune, h, byte, this]

theorem encoderune2 (r : Nat) (h1 : rune1Max < r) (h2 : r ≤ rune2Max) :
    encoderune r = [192 + r / 64, 128 + r % 64] := by
  simp only [rune1Max, rune2Max] at h1 h2
  have e1 : t2 ||| byte (r >>> 6) = 192 + r / 64 := by
    have hb : byte (r >>> 6) = r / 64 := by
      simp only [byte, Nat.shiftRight_eq_div_pow]; omega
    rw [hb, or_t2 _ (by omega)]
  have e2 : tx ||| (byte r &&& maskx) = 128 + r % 64 := by
    rw [and_maskx, or_tx _ (Nat.mod_lt _ (by norm_num))]
    simp only [byte]; omega
  have n1 : ¬ r ≤ rune1Max := by simp only [rune1Max]; omega
  have p2 : r ≤ rune2Max := by simp only [rune2Max]; omega
  simp only [encoderune, n1, p2, if_false, if_true, e1, e2]

theorem encoderune3 (r : Nat) (h1 : rune2Max < r) (h2 : r ≤ rune3Max)
    (hs : ¬ (surrogateMin ≤ r ∧ r ≤ surrogateMax)) :
    encoderune r = [224 + r / 4096, 128 + r / 64 % 64, 128 + r % 64] := by
  simp only [rune2Max, rune3Max] at h1 h2
  have e1 : t3 ||| byte (r >>> 12) = 224 + r / 4096 := by
    have hb : byte (r >>> 12) = r / 4096 := by
      simp only [byte, Nat.shiftRight_eq_div_pow]; omega
    rw [hb, or_t3 _ (by omega)]
  have e2 : tx ||| (byte (r >>> 6) &&& maskx) = 128 + r / 64 % 64 := by
    rw [and_maskx, or_tx _ (Nat.mod_lt _ (by norm_num))]
    simp only [byte, Nat.shiftRight_eq_div_pow]; omega
  have e3 : tx ||| (byte r &&& maskx) = 128 + r % 64 := by
    rw [and_maskx, or_tx _ (Nat.mod_lt _ (by norm_num))]
    simp only [byte]; omega
  have n1 : ¬ r ≤ rune1Max := by simp only [rune1Max]; omega
  have n2 : ¬ r ≤ rune2Max := by simp only [rune2Max]; omega
  have n3 : ¬ (r > maxRune ∨ (surrogateMin ≤ r ∧ r ≤ surrogateMax)) := by
    simp only [maxRune] at *; omega
  have p3 : r ≤ rune3Max := by simp only [rune3Max]; omega
  simp only [encoderune, n1, n2, n3, p3, if_false, if_true, e1, e2, e3]

theorem encoderune4 (r : Nat) (h1 : rune3Max < r) (h2 : r ≤ maxRune) :
    encoderune r = [240 + r / 262144, 128 + r / 4096 % 64, 128 + r / 64 % 64, 128 + r % 64] := by
  simp only [rune3Max, maxRune] at h1 h2
  have e1 : t4 ||| byte (r >>> 18) = 240 + r / 262144 := by
    have hb : byte (r >>> 18) = r / 262144 := by
      simp only [byte, Nat.shiftRight_eq_div_pow]; omega
    rw [hb, or_t4 _ (by omega)]
  have e2 : tx ||| (byte (r >>> 12) &&& maskx) = 128 + r / 4096 % 64 := by
    rw [and_maskx, or_tx _ (Nat.mod_lt _ (by norm_num))]
    simp only [byte, Nat.shiftRight_eq_div_pow]; omega
  have e3 : tx ||| (byte (r >>> 6) &&& maskx) = 128 + r / 64 % 64 := by
    rw [and_maskx, or_tx _ (Nat.mod_lt _ (by norm_num))]
    simp only [byte, Nat.shiftRight_eq_div_pow]; omega
  have e4 : tx ||| (byte r &&& maskx) = 128 + r % 64 := by
    rw [and_maskx, or_tx _ (Nat.mod_lt _ (by norm_num))]
    simp only [byte]; omega
  have n1 : ¬ r ≤ rune1Max := by simp only [rune1Max]; omega
  have n2 : ¬ r ≤ rune2Max := by simp only [rune2Max]; omega
  have n3 : ¬ (r > maxRune ∨ (surrogateMin ≤ r ∧ r ≤ surrogateMax)) := by
    simp only [maxRune, surrogateMin, surrogateMax]; omega
  have n4 : ¬ r ≤ rune3Max := by simp only [rune3Max]; omega
  simp only [encoderune, n1, n2, n3, n4, if_false, e1, e2, e3, e4]

/-- A position that `decoderune` does not report as an encoding error holds a
well-formed sequence of 2 to 4 bytes: the rune read is a Unicode scalar value
above ASCII and `encoderune` writes exactly the bytes that were read. -/
theorem decoderune_valid (s : GoString) (h : (decoderune s).2 ≠ 1) :
    2 ≤ (decoderune s).2 ∧ (decoderune s).2 ≤ s.length ∧
    encoderune (decoderune s).1 = s.take (decoderune s).2 ∧
    rune1Max < (decoderune s).1 ∧ (decoderune s).1 ≤ maxRune ∧
    ¬ (surrogateMin ≤ (decoderune s).1 ∧ (decoderune s).1 ≤ surrogateMax) := by
  unfold decoderune at h ⊢
  simp only [dec2, dec3, dec4] at h ⊢
  split_ifs at h ⊢ with c0 c1 c2 c3 c4 c5 c6 c7 c8 c9
  all_goals first | (exfalso; exact h rfl) | skip
  · obtain ⟨a, b, t, rfl⟩ : ∃ a b t, s = a :: b :: t := by
      match s, c2 with
      | a :: b :: t, _ => exact ⟨a, b, t, rfl⟩
      | [_], c => simp at c
      | [], c => simp at c
    simp only [List.getD_cons_zero, List.getD_cons_succ, t2, t3, locb, hicb, rune1Max,
      List.length_cons] at c1 c2 c3 ⊢
    refine ⟨le_refl _, by omega, ?_, by omega, by simp only [maxRune]; omega,
      by simp only [surrogateMin]; omega⟩
    rw [encoderune2 _ (by simp only [rune1Max]; omega) (by simp only [rune2Max]; omega)]
    simp only [List.take_succ_cons, List.take_zero]
    congr 1
    · omega
    · congr 1; omega
  · obtain ⟨a, b, c, t, rfl⟩ : ∃ a b c t, s = a :: b :: c :: t := by
      match s, c5 with
      | a :: b :: c :: t, _ => exact ⟨a, b, c, t, rfl⟩
      | [_, _], c => simp at c
      | [_], c => simp at c
      | [], c => simp at c
    simp only [List.getD_cons_zero, List.getD_cons_succ, t3, t4, locb, hicb, rune2Max,
      surrogateMin, surrogateMax, List.length_cons] at c4 c5 c6 ⊢
    refine ⟨by omega, by omega, ?_, by simp only [rune1Max]; omega,
      by simp only [maxRune]; omega, by omega⟩
    rw [encoderune3 _ (by simp only [rune2Max]; omega) (by simp only [rune3Max]; omega)
      (by simp only [surrogateMin, surrogateMax]; omega)]
    simp only [List.take_succ_cons, List.take_zero]
    congr 1
    · omega
    · congr 1
      · omega
      · congr 1; omega
  · obtain ⟨a, b, c, d, t, rfl⟩ : ∃ a b c d t, s = a :: b :: c :: d :: t := by
      match s, c8 with
      | a :: b :: c :: d :: t, _ => exact ⟨a, b, c, d, t, rfl⟩
      | [_, _, _], c => simp at c
      | [_, _], c => simp at c
      | [_], c => simp at c
      | [], c => simp at c
    simp only [List.getD_cons_zero, List.getD_cons_succ, t4, t5, locb, hicb, rune3Max,
      maxRune, List.length_cons] at c7 c8 c9 ⊢
    refine ⟨by omega, by omega, ?_, by simp only [rune1Max]; omega, by omega,
      by simp only [surrogateMin, surrogateMax]; omega⟩
    rw [encoderune4 _ (by simp only [rune3Max]; omega) (by simp only [maxRune]; omega)]
    simp only [List.take_succ_cons, List.take_zero]
    congr 1
    · omega
    · congr 1
      · omega
      · congr 1
        · omega
        · congr 1; omega

theorem decoderune_error (s : GoString) (h : (decoderune s).2 = 1) :
    (decoderune s).1 = runeError := by
  unfold decoderune at h ⊢
  simp only at h ⊢
  split_ifs at h ⊢ <;> first | rfl | (simp at h)

theorem decoderune_width_pos (s : GoString) : 1 ≤ (decoderune s).2 := by
  by_cases h : (decoderune s).2 = 1
  · omega
  · have := (decoderune_valid s h).1; omega

theorem decoderune_rune_pos (s : GoString) : rune1Max < (decoderune s).1 := by
  by_cases h : (decoderune s).2 = 1
  · rw [decoderune_error s h]; decide
  · exact (decoderune_valid s h).2.2.2.1

/-- A NUL byte after the string never completes a sequence: `decoderune` reads
the same from `s ++ [0]` as from a non-empty `s`. -/
theorem decoderune_append_nul (s : GoString) (hs : s ≠ []) :
    decoderune (s ++ [0]) = decoderune s := by
  match s, hs with
  | [a], _ =>
    simp [decoderune, locb]
  | [a, b], _ =>
    simp [decoderune, locb]
  | [a, b, c], _ =>
    simp [decoderune, locb]
  | a :: b :: c :: d :: t, _ =>
    simp [decoderune]

/-! ## The loops over a string -/

theorem runesLoop_fuel (n m : Nat) (s : GoString) (hn : s.length ≤ n) (hm : s.length ≤ m) :
    runesLoop n s = runesLoop m s := by
  induction n generalizing m s with
  | zero =>
    have : s = [] := List.length_eq_zero.mp (by omega)
    subst this
    cases m <;> rfl
  | succ n ih =>
    cases s with
    | nil => cases m <;> rfl
    | cons c t =>
      cases m with
      | zero => simp at hm
      | succ m =>
        simp only [List.length_cons] at hn hm
        simp only [runesLoop]
        split_ifs with hc
        · rw [ih m t (by omega) (by omega)]
        · have hw := decoderune_width_pos (c :: t)
          rw [ih m _ (by simp only [List.length_drop, List.length_cons]; omega)
            (by simp only [List.length_drop, List.length_cons]; omega)]

theorem validLoop_fuel (n m : Nat) (s : GoString) (hn : s.length ≤ n) (hm : s.length ≤ m) :
    validLoop n s = validLoop m s := by
  induction n generalizing m s with
  | zero =>
    have : s = [] := List.length_eq_zero.mp (by omega)
    subst this
    cases m <;> rfl
  | succ n ih =>
    cases s with
    | nil => cases m <;> rfl
    | cons c t =>
      cases m with
      | zero => simp at hm
      | succ m =>
        simp only [List.length_cons] at hn hm
        simp only [validLoop]
        split_ifs with hc hd
        · rw [ih m t (by omega) (by omega)]
        · rfl
        · have hw := decoderune_width_pos (c :: t)
          rw [ih m _ (by simp only [List.length_drop, List.length_cons]; omega)
            (by simp only [List.length_drop, List.length_cons]; omega)]

theorem stringToRunes_nil : stringToRunes [] = [] := rfl

theorem stringToRunes_ascii (c : Nat) (t : GoString) (hc : c < runeSelf) :
    stringToRunes (c :: t) = c :: stringToRunes t := by
  simp only [stringToRunes, List.length_cons, runesLoop, hc, if_true]

theorem stringToRunes_multi (c : Nat) (t : GoString) (hc : ¬ c < runeSelf) :
    stringToRunes (c :: t) = (decoderune (c :: t)).1 ::
      stringToRunes ((c :: t).drop (decoderune (c :: t)).2) := by
  have hw := decoderune_width_pos (c :: t)
  simp only [stringToRunes, List.length_cons, runesLoop, hc, if_false]
  rw [runesLoop_fuel t.length _ _ (by simp only [List.length_drop, List.length_cons]; omega)
    (le_refl _)]

theorem validString_nil : validString [] = true := rfl

theorem validString_ascii (c : Nat) (t : GoString) (hc : c < runeSelf) :
    validString (c :: t) = validString t := by
  simp only [validString, List.length_cons, validLoop, hc, if_true]

theorem validString_multi (c : Nat) (t : GoString) (hc : ¬ c < runeSelf) :
    validString (c :: t) = (if (decoderune (c :: t)).2 = 1 then false
      else validString ((c :: t).drop (decoderune (c :: t)).2)) := by
  have hw := decoderune_width_pos (c :: t)
  simp only [validString, List.length_cons, validLoop, hc, if_false]
  split_ifs with hd
  · rfl
  · rw [validLoop_fuel t.length _ _ (by simp only [List.length_drop, List.length_cons]; omega)
      (le_refl _)]

/-- Induction along the iterations of a `range` loop over a string. -/
theorem range_induction {P : GoString → Prop} (nil : P [])
    (ascii : ∀ c t, c < runeSelf → P t → P (c :: t))
    (multi : ∀ c t, ¬ c < runeSelf → P ((c :: t).drop (decoderune (c :: t)).2) → P (c :: t))
    (s : GoString) : P s := by
  have key : ∀ n, ∀ s : GoString, s.length ≤ n → P s := by
    intro n
    induction n with
    | zero =>
      intro s hs
      have : s = [] := List.length_eq_zero.mp (by omega)
      subst this
      exact nil
    | succ n ih =>
      intro s hs
      cases s with
      | nil => exact nil
      | cons c t =>
        simp only [List.length_cons] at hs
        by_cases hc : c < runeSelf
        · exact ascii c t hc (ih t (by omega))
        · have hw := decoderune_width_pos (c :: t)
          exact multi c t hc (ih _ (by
            simp only [List.length_drop, List.length_cons]; omega))
  exact key s.length s (le_refl _)

theorem stringToRunes_append_nul (s : GoString) :
    stringToRunes (s ++ [0]) = stringToRunes s ++ [0] := by
  induction s using range_induction with
  | nil => decide
  | ascii c t hc ih =>
    rw [List.cons_append, stringToRunes_ascii _ _ hc, stringToRunes_ascii _ _ hc, ih,
      List.cons_append]
  | multi c t hc ih =>
    have hd := decoderune_append_nul (c :: t) (by simp)
    rw [List.cons_append] at hd
    rw [List.cons_append, stringToRunes_multi _ _ hc, stringToRunes_multi _ _ hc, hd,
      List.cons_append]
    by_cases h1 : (decoderune (c :: t)).2 = 1
    · rw [h1] at ih ⊢
      simp only [List.drop_succ_cons, List.drop_zero] at ih ⊢
      rw [ih]
    · have hv := (decoderune_valid _ h1).2.1
      rw [← List.cons_append, List.drop_append_of_le_length hv, ih]

theorem stringToRunes_ne_zero (s : GoString) (h : 0 ∉ s) : 0 ∉ stringToRunes s := by
  induction s using range_induction with
  | nil => simp [stringToRunes_nil]
  | ascii c t hc ih =>
    rw [stringToRunes_ascii _ _ hc]
    simp only [List.mem_cons, not_or] at h ⊢
    exact ⟨h.1, ih h.2⟩
  | multi c t hc ih =>
    rw [stringToRunes_multi _ _ hc]
    simp only [List.mem_cons, not_or]
    refine ⟨?_, ih (fun hm => h (List.mem_of_mem_drop hm))⟩
    have := decoderune_rune_pos (c :: t)
    simp only [rune1Max] at this
    omega

/-- Decoding a valid string gives Unicode scalar values only, and encoding them
gives the string back. -/
theorem stringToRunes_valid (s : GoString) (h : validString s = true) :
    runesToString (stringToRunes s) = s ∧ ∀ r ∈ stringToRunes s, isScalar r := by
  induction s using range_induction with
  | nil => simp [stringToRunes_nil, runesToString]
  | ascii c t hc ih =>
    rw [validString_ascii _ _ hc] at h
    rw [stringToRunes_ascii _ _ hc]
    obtain ⟨h1, h2⟩ := ih h
    simp only [runeSelf] at hc
    constructor
    · simp only [runesToString, List.flatMap_cons] at h1 ⊢
      rw [h1, encoderune1 c (by simp only [rune1Max]; omega)]
      rfl
    · intro r hr
      rcases List.mem_cons.mp hr with rfl | hr
      · simp only [isScalar, maxRune, surrogateMin]; omega
      · exact h2 r hr
  | multi c t hc ih =>
    rw [validString_multi _ _ hc] at h
    by_cases h1 : (decoderune (c :: t)).2 = 1
    · simp [h1] at h
    · simp only [h1, if_false] at h
      rw [stringToRunes_multi _ _ hc]
      obtain ⟨e1, e2⟩ := ih h
      obtain ⟨_, _, he, _, hm, hsur⟩ := decoderune_valid _ h1
      constructor
      · simp only [runesToString, List.flatMap_cons] at e1 ⊢
        rw [e1, he, List.take_append_drop]
      · intro r hr
        rcases List.mem_cons.mp hr with rfl | hr
        · exact ⟨hm, hsur⟩
        · exact e2 r hr

/-- What `decoderune` reads from the bytes `encoderune` wrote for a Unicode
scalar value above ASCII: that value, and the number of bytes written. -/
theorem decoderune_encoderune (r : Nat) (t : GoString) (hs : isScalar r) (h1 : rune1Max < r) :
    decoderune (encoderune r ++ t) = (r, (encoderune r).length) ∧
    2 ≤ (encoderune r).length ∧ ∀ b ∈ encoderune r, ¬ b < runeSelf := by
  simp only [isScalar, maxRune, surrogateMin, surrogateMax] at hs
  simp only [rune1Max] at h1
  by_cases c2 : r ≤ rune2Max
  · rw [encoderune2 r (by simp only [rune1Max]; omega) c2]
    simp only [rune2Max] at c2
    refine ⟨?_, by simp, by simp [runeSelf]; omega⟩
    simp only [decoderune, dec2, List.cons_append, List.nil_append, List.getD_cons_zero,
      List.getD_cons_succ, List.length_cons, t2, t3, locb, hicb, rune1Max]
    have e : (192 + r / 64) % 32 * 64 + (128 + r % 64) % 64 = r := by omega
    rw [e]
    simp only [List.length_nil]
    rw [if_neg (by omega), if_pos (by omega), if_pos (by omega), if_pos (by omega)]
  · by_cases c3 : r ≤ rune3Max
    · rw [encoderune3 r (by omega) c3 (by simp only [surrogateMin, surrogateMax]; omega)]
      simp only [rune2Max, rune3Max] at c2 c3
      refine ⟨?_, by simp, by simp [runeSelf]; omega⟩
      simp only [decoderune, dec3, List.cons_append, List.nil_append, List.getD_cons_zero,
        List.getD_cons_succ, List.length_cons, t2, t3, t4, locb, hicb, rune2Max, surrogateMin,
        surrogateMax]
      have e : (224 + r / 4096) % 16 * 4096 + (128 + r / 64 % 64) % 64 * 64
          + (128 + r % 64) % 64 = r := by omega
      rw [e]
      simp only [List.length_nil]
      rw [if_neg (by omega), if_neg (by omega), if_pos (by omega), if_pos (by omega),
        if_pos (by omega)]
    · simp only [rune2Max, rune3Max] at c2 c3
      rw [encoderune4 r (by simp only [rune3Max]; omega) (by simp only [maxRune]; omega)]
      refine ⟨?_, by simp, by simp [runeSelf]; omega⟩
      simp only [decoderune, dec4, List.cons_append, List.nil_append, List.getD_cons_zero,
        List.getD_cons_succ, List.length_cons, t2, t3, t4, t5, locb, hicb, rune3Max, maxRune]
      have e : (240 + r / 262144) % 8 * 262144 + (128 + r / 4096 % 64) % 64 * 4096
          + (128 + r / 64 % 64) % 64 * 64 + (128 + r % 64) % 64 = r := by omega
      rw [e]
      simp only [List.length_nil]
      rw [if_neg (by omega), if_neg (by omega), if_neg (by omega), if_pos (by omega),
        if_pos (by omega), if_pos (by omega)]

/-- The UTF-8 encoding of any sequence of Unicode scalar values is a valid
string, decodes to that sequence, and contains a NUL byte only if the sequence
contains the value 0. -/
theorem validString_runesToString (rs : List Nat) (h : ∀ r ∈ rs, isScalar r) :
    validString (runesToString rs) = true ∧ stringToRunes (runesToString rs) = rs ∧
    (0 ∉ rs → 0 ∉ runesToString rs) := by
  induction rs with
  | nil => exact ⟨rfl, rfl, fun _ => by simp [runesToString]⟩
  | cons r rs ih =>
    obtain ⟨ih1, ih2, ih3⟩ := ih (fun x hx => h x (List.mem_cons_of_mem _ hx))
    have hr := h r (List.mem_cons_self _ _)
    have hcons : runesToString (r :: rs) = encoderune r ++ runesToString rs := by
      simp [runesToString]
    rw [hcons]
    by_cases c1 : r ≤ rune1Max
    · rw [encoderune1 r c1]
      have hc : r < runeSelf := by simp only [rune1Max, runeSelf] at c1 ⊢; omega
      refine ⟨?_, ?_, ?_⟩
      · rw [List.singleton_append, validString_ascii _ _ hc, ih1]
      · rw [List.singleton_append, stringToRunes_ascii _ _ hc, ih2]
      · intro h0
        simp only [List.mem_cons, not_or] at h0
        simp only [List.singleton_append, List.mem_cons, not_or]
        exact ⟨h0.1, ih3 h0.2⟩
    · obtain ⟨hd, hlen, hbytes⟩ := decoderune_encoderune r (runesToString rs) hr (by omega)
      obtain ⟨b, bs, hb⟩ : ∃ b bs, encoderune r = b :: bs := by
        cases he : encoderune r with
        | nil => rw [he] at hlen; simp at hlen
        | cons b bs => exact ⟨b, bs, rfl⟩
      have hb0 : ¬ b < runeSelf := hbytes b (by rw [hb]; simp)
      have hdrop : List.drop (encoderune r).length (encoderune r ++ runesToString rs)
          = runesToString rs := List.drop_left _ _
      rw [hb, List.cons_append] at hd hdrop ⊢
      refine ⟨?_, ?_, ?_⟩
      · rw [validString_multi _ _ hb0, hd]
        simp only
        rw [if_neg (by rw [hb] at hlen; omega), hdrop, ih1]
      · rw [stringToRunes_multi _ _ hb0, hd]
        simp only
        rw [hdrop, ih2]
      · intro h0
        simp only [List.mem_cons, not_or] at h0
        intro hm
        rw [← List.cons_append, ← hb] at hm
        rcases List.mem_append.mp hm with hm | hm
        · exact hbytes 0 hm (by decide)
        · exact ih3 h0.2 hm

/-! ## UTF-16 -/

theorem utf16Encode_append (xs ys : List Nat) :
    utf16Encode (xs ++ ys) = utf16Encode xs ++ utf16Encode ys := by
  induction xs with
  | nil => rfl
  | cons v s ih =>
    simp only [List.cons_append, utf16Encode]
    split_ifs <;> simp [ih]

theorem EncodeRune_pair (r : Nat) (h1 : surrSelf ≤ r) (h2 : r ≤ maxRune) :
    EncodeRune r = (surr1 + (r - surrSelf) / 1024, surr2 + (r - surrSelf) % 1024) := by
  simp only [surrSelf, maxRune] at h1 h2
  have n : ¬ (r < surrSelf ∨ r > maxRune) := by simp only [surrSelf, maxRune]; omega
  simp only [EncodeRune, n, if_false, and_0x3FF, Nat.shiftRight_eq_div_pow]
  congr 2
  simp only [surrSelf]; omega

theorem DecodeRune_pair (r1 r2 : Nat) (h : surr1 ≤ r1 ∧ r1 < surr2 ∧ surr2 ≤ r2 ∧ r2 < surr3) :
    DecodeRune r1 r2 = (r1 - surr1) * 1024 + (r2 - surr2) + surrSelf := by
  simp only [DecodeRune, h, and_self, if_true, Nat.shiftLeft_eq]
  rw [or_eq_add 10 _ _ (by simp only [surr2, surr3] at h ⊢; omega)]
  norm_num

theorem utf16Decode_single (r : Nat) (s : List Nat) (h : r < surr1 ∨ surr3 ≤ r) :
    utf16Decode (r :: s) = r :: utf16Decode s := by
  cases s with
  | nil => simp [utf16Decode, h]
  | cons r2 s => simp [utf16Decode, h]

theorem utf16Decode_pair (r r2 : Nat) (s : List Nat)
    (h : surr1 ≤ r ∧ r < surr2 ∧ surr2 ≤ r2 ∧ r2 < surr3) :
    utf16Decode (r :: r2 :: s) = DecodeRune r r2 :: utf16Decode s := by
  have n : ¬ (r < surr1 ∨ surr3 ≤ r) := by simp only [surr1, surr2, surr3] at h ⊢; omega
  simp only [utf16Decode, n, h, and_self, if_true, if_false]

/-- Decoding undoes encoding on Unicode scalar values. -/
theorem utf16Decode_utf16Encode (rs : List Nat) (h : ∀ r ∈ rs, isScalar r) :
    utf16Decode (utf16Encode rs) = rs := by
  induction rs with
  | nil => rfl
  | cons v s ih =>
    have hv := h v (List.mem_cons_self _ _)
    have ih := ih (fun r hr => h r (List.mem_cons_of_mem _ hr))
    simp only [isScalar, maxRune, surrogateMin, surrogateMax] at hv
    by_cases c1 : v < surr1 ∨ (surr3 ≤ v ∧ v < surrSelf)
    · simp only [utf16Encode, c1, if_true]
      have e : uint16 v = v := by
        simp only [uint16, surr1, surr3, surrSelf] at c1 ⊢; omega
      rw [e, utf16Decode_single _ _ (by simp only [surr1, surr3, surrSelf] at c1 ⊢; omega), ih]
    · have c2 : surrSelf ≤ v ∧ v ≤ maxRune := by
        simp only [surr1, surr3, surrSelf, maxRune] at c1 ⊢; omega
      simp only [utf16Encode, c1, c2, and_self, if_true, if_false]
      rw [EncodeRune_pair v c2.1 c2.2]
      simp only [surrSelf, maxRune] at c2
      have e1 : uint16 (surr1 + (v - surrSelf) / 1024) = surr1 + (v - surrSelf) / 1024 := by
        simp only [uint16, surr1, surrSelf]; omega
      have e2 : uint16 (surr2 + (v - surrSelf) % 1024) = surr2 + (v - surrSelf) % 1024 := by
        simp only [uint16, surr2, surrSelf]; omega
      rw [e1, e2, utf16Decode_pair _ _ _
        (by simp only [surr1, surr2, surr3, surrSelf]; omega), ih, DecodeRune_pair _ _
        (by simp only [surr1, surr2, surr3, surrSelf]; omega)]
      have e3 : (surr1 + (v - surrSelf) / 1024 - surr1) * 1024
          + (surr2 + (v - surrSelf) % 1024 - surr2) + surrSelf = v := by
        simp only [surr1, surr2, surrSelf]; omega
      rw [e3]

/-- The code units of non-zero runes are non-zero. -/
theorem utf16Encode_ne_zero (rs : List Nat) (h : 0 ∉ rs) : 0 ∉ utf16Encode rs := by
  induction rs with
  | nil => simp [utf16Encode]
  | cons v s ih =>
    simp only [List.mem_cons, not_or] at h
    have ih := ih h.2
    have hv : v ≠ 0 := fun e => h.1 e.symm
    simp only [utf16Encode]
    split_ifs with c1 c2
    · simp only [List.mem_cons, not_or]
      refine ⟨?_, ih⟩
      simp only [uint16, surr1, surr3, surrSelf] at c1 ⊢; omega
    · rw [EncodeRune_pair v c2.1 c2.2]
      simp only [List.mem_cons, not_or]
      refine ⟨?_, ?_, ih⟩
      · simp only [uint16, surr1, surrSelf, maxRune] at c2 ⊢; omega
      · simp only [uint16, surr2, surrSelf, maxRune] at c2 ⊢; omega
    · simp only [List.mem_cons, not_or]
      exact ⟨by decide, ih⟩

theorem takeWhile_nul (l rest : List Nat) (h : 0 ∉ l) :
    (l ++ 0 :: rest).takeWhile (fun v => v != 0) = l := by
  induction l with
  | nil => simp
  | cons a l ih =>
    simp only [List.mem_cons, not_or] at h
    have ha : (a != 0) = true := by simpa using fun e => h.1 e.symm
    simp only [List.cons_append, List.takeWhile_cons, ha, if_true, ih h.2]

/-! ## The wide-character boundary -/

theorem StringToUTF16_ok (s : GoString) (h : 0 ∉ s) :
    StringToUTF16 s = .ok (wideName s ++ [0]) := by
  have e : utf16Encode [0] = [0] := by decide
  simp only [StringToUTF16, UTF16FromString, h, if_false, stringToRunes_append_nul,
    utf16Encode_append, wideName, e]

theorem StringToUTF16_panic (s : GoString) (h : 0 ∈ s) :
    StringToUTF16 s = .panic "syscall: string with NUL passed to StringToUTF16" := by
  simp only [StringToUTF16, UTF16FromString, h, if_true]

theorem StringToUTF16Ptr_ok (s : GoString) (h : 0 ∉ s) :
    StringToUTF16Ptr s = .ok (.ptr (wideName s ++ [0])) := by
  simp only [StringToUTF16Ptr, StringToUTF16_ok s h]

theorem StringToUTF16Ptr_panic (s : GoString) (h : 0 ∈ s) :
    StringToUTF16Ptr s = .panic "syscall: string with NUL passed to StringToUTF16" := by
  simp only [StringToUTF16Ptr, StringToUTF16_panic s h]

theorem wideName_ne_zero (s : GoString) (h : 0 ∉ s) : 0 ∉ wideName s :=
  utf16Encode_ne_zero _ (stringToRunes_ne_zero s h)

theorem wideName_ne_nil (s : GoString) (h : s ≠ []) : wideName s ≠ [] := by
  cases s with
  | nil => exact absurd rfl h
  | cons c t =>
    by_cases hc : c < runeSelf
    · simp only [wideName, stringToRunes_ascii _ _ hc, utf16Encode]
      split_ifs <;> simp
    · simp only [wideName, stringToRunes_multi _ _ hc, utf16Encode]
      split_ifs <;> simp

/-- Reading back a buffer that holds the wide form of a valid NUL-free string,
a NUL and anything after it, gives the string. -/
theorem UTF16ToString_wideName (s : GoString) (rest : List Nat)
    (hv : validString s = true) (hn : 0 ∉ s) :
    UTF16ToString (wideName s ++ 0 :: rest) = s := by
  obtain ⟨h1, h2⟩ := stringToRunes_valid s hv
  rw [UTF16ToString, takeWhile_nul _ _ (wideName_ne_zero s hn), wideName,
    utf16Decode_utf16Encode _ h2, h1]

/-! ## `ShellExecute` -/

/-- The argument word of an optional string. -/
theorem optional_arg (s : GoString) (h : 0 ∉ s) :
    (if s.length ≠ 0 then StringToUTF16Ptr s else Result.ok (Arg.word 0))
      = .ok (if s = [] then Arg.word 0 else Arg.ptr (wideName s ++ [0])) := by
  cases s with
  | nil => rfl
  | cons c t => simp [StringToUTF16Ptr_ok _ h]

/-- The run of `ShellExecute` on strings without NUL byte. -/
theorem ShellExecute_run (a : Arch) (native : List Arg → Nat) (hwnd : Nat)
    (lpOperation lpFile lpParameters lpDirectory : GoString) (nShowCmd : Int)
    (h : 0 ∉ lpOperation ∧ 0 ∉ lpFile ∧ 0 ∉ lpParameters ∧ 0 ∉ lpDirectory)
    (args : List Arg)
    (hargs : args = [Arg.word hwnd,
      if lpOperation = [] then Arg.word 0 else Arg.ptr (wideName lpOperation ++ [0]),
      Arg.ptr (wideName lpFile ++ [0]),
      if lpParameters = [] then Arg.word 0 else Arg.ptr (wideName lpParameters ++ [0]),
      if lpDirectory = [] then Arg.word 0 else Arg.ptr (wideName lpDirectory ++ [0]),
      Arg.word (intToUintptr a nShowCmd)]) :
    ShellExecute a native hwnd lpOperation lpFile lpParameters lpDirectory nShowCmd
      = if native args ≠ 0 ∧ native args ≤ 32 then
          ⟨[(args, native args)],
            .ok (some (errorMsg (uintptrToInt a (native args)) (native args)))⟩
        else ⟨[(args, native args)], .ok none⟩ := by
  obtain ⟨h1, h2, h3, h4⟩ := h
  subst hargs
  simp only [ShellExecute, optional_arg _ h1, optional_arg _ h3, optional_arg _ h4,
    StringToUTF16Ptr_ok _ h2]

/-- A NUL byte in a string ends `ShellExecute` before the native call. -/
theorem ShellExecute_nul (a : Arch) (native : List Arg → Nat) (hwnd : Nat)
    (lpOperation lpFile lpParameters lpDirectory : GoString) (nShowCmd : Int)
    (h : ¬ (0 ∉ lpOperation ∧ 0 ∉ lpFile ∧ 0 ∉ lpParameters ∧ 0 ∉ lpDirectory)) :
    ShellExecute a native hwnd lpOperation lpFile lpParameters lpDirectory nShowCmd
      = ⟨[], .panic "syscall: string with NUL passed to StringToUTF16"⟩ := by
  have nonempty : ∀ s : GoString, 0 ∈ s → s.length ≠ 0 := by
    intro s hs e
    rw [List.length_eq_zero.mp e] at hs
    simp at hs
  by_cases h1 : 0 ∈ lpOperation
  · simp only [ShellExecute, nonempty _ h1, StringToUTF16Ptr_panic _ h1, if_true, ne_eq,
      not_false_eq_true]
  by_cases h3 : 0 ∈ lpParameters
  · simp only [ShellExecute, optional_arg _ h1, nonempty _ h3, StringToUTF16Ptr_panic _ h3,
      if_true, ne_eq, not_false_eq_true]
  by_cases h4 : 0 ∈ lpDirectory
  · simp only [ShellExecute, optional_arg _ h1, optional_arg _ h3, nonempty _ h4,
      StringToUTF16Ptr_panic _ h4, if_true, ne_eq, not_false_eq_true]
  by_cases h2 : 0 ∈ lpFile
  · simp only [ShellExecute, optional_arg _ h1, optional_arg _ h3, optional_arg _ h4,
      StringToUTF16Ptr_panic _ h2]
  exact absurd ⟨h1, h2, h3, h4⟩ h

/-- Whenever `ShellExecute` reaches the native call, its outcome is the one
selected by the return value. -/
theorem ShellExecute_of_call (a : Arch) (native : List Arg → Nat) (hwnd : Nat)
    (lpOperation lpFile lpParameters lpDirectory : GoString) (nShowCmd : Int)
    (args : List Arg) (ret : Nat)
    (hcall : (ShellExecute a native hwnd lpOperation lpFile lpParameters lpDirectory
      nShowCmd).calls = [(args, ret)]) :
    (ShellExecute a native hwnd lpOperation lpFile lpParameters lpDirectory nShowCmd).result
      = if ret ≠ 0 ∧ ret ≤ 32 then .ok (some (errorMsg (uintptrToInt a ret) ret))
        else .ok none := by
  by_cases h : 0 ∉ lpOperation ∧ 0 ∉ lpFile ∧ 0 ∉ lpParameters ∧ 0 ∉ lpDirectory
  · have hrun := ShellExecute_run a native hwnd _ _ _ _ nShowCmd h _ rfl
    revert hrun
    generalize ([Arg.word hwnd,
      if lpOperation = [] then Arg.word 0 else Arg.ptr (wideName lpOperation ++ [0]),
      Arg.ptr (wideName lpFile ++ [0]),
      if lpParameters = [] then Arg.word 0 else Arg.ptr (wideName lpParameters ++ [0]),
      if lpDirectory = [] then Arg.word 0 else Arg.ptr (wideName lpDirectory ++ [0]),
      Arg.word (intToUintptr a nShowCmd)] : List Arg) = args0
    intro hrun
    rw [hrun] at hcall ⊢
    by_cases c : native args0 ≠ 0 ∧ native args0 ≤ 32
    · rw [if_pos c] at hcall ⊢
      simp only [List.cons.injEq, Prod.mk.injEq, and_true] at hcall
      obtain ⟨_, rfl⟩ := hcall
      rw [if_pos c]
    · rw [if_neg c] at hcall ⊢
      simp only [List.cons.injEq, Prod.mk.injEq, and_true] at hcall
      obtain ⟨_, rfl⟩ := hcall
      rw [if_neg c]
  · rw [ShellExecute_nul a native hwnd _ _ _ _ nShowCmd h] at hcall
    simp at hcall

/-! ## The result mapping of `ShellExecute` -/

theorem uintptrToInt_small (a : Arch) (ret : Nat) (h : ret ≤ 32) :
    uintptrToInt a ret = (ret : Int) := by
  cases a <;> simp only [uintptrToInt, Arch.bits] <;> norm_num <;> omega

theorem int_uintptr_roundtrip (a : Arch) (i : Int)
    (h : -(2 ^ (a.bits - 1) : Int) ≤ i ∧ i < (2 ^ (a.bits - 1) : Int)) :
    uintptrToInt a (intToUintptr a i) = i := by
  cases a <;> simp only [uintptrToInt, intToUintptr, Arch.bits] at h ⊢ <;> norm_num at h ⊢ <;>
    split_ifs <;> omega

theorem errorMsg_unknown (n : Nat)
    (h : n ∉ [2, 3, 5, 8, 11, 26, 27, 28, 29, 30, 31, 32]) :
    errorMsg (n : Int) n = "Unknown error occurred with error code " ++ Nat.repr n := by
  simp only [List.mem_cons, List.mem_singleton, not_or, List.not_mem_nil, or_false] at h
  simp only [errorMsg, ERROR_FILE_NOT_FOUND, ERROR_PATH_NOT_FOUND, ERROR_BAD_FORMAT,
    SE_ERR_ACCESSDENIED, SE_ERR_ASSOCINCOMPLETE, SE_ERR_DDEBUSY, SE_ERR_DDEFAIL,
    SE_ERR_DDETIMEOUT, SE_ERR_DLLNOTFOUND, SE_ERR_NOASSOC, SE_ERR_OOM, SE_ERR_SHARE]
  have e : ∀ k : Nat, ((n : Int) = (k : Int)) = (n = k) := fun k => by
    simp only [Nat.cast_inj]
  have e2 := e 2; have e3 := e 3; have e11 := e 11; have e5 := e 5; have e27 := e 27
  have e30 := e 30; have e29 := e 29; have e28 := e 28; have e32 := e 32; have e31 := e 31
  have e8 := e 8; have e26 := e 26
  simp only [Nat.cast_ofNat] at e2 e3 e11 e5 e27 e30 e29 e28 e32 e31 e8 e26
  simp only [e2, e3, e11, e5, e27, e30, e29, e28, e32, e31, e8, e26, h, if_false]

theorem unknown_msgs_table : ∀ p ∈ [((1 : Nat), "Unknown error occurred with error code 1"),
      (4, "Unknown error occurred with error code 4"),
      (6, "Unknown error occurred with error code 6"),
      (7, "Unknown error occurred with error code 7"),
      (9, "Unknown error occurred with error code 9"),
      (10, "Unknown error occurred with error code 10"),
      (12, "Unknown error occurred with error code 12"),
      (13, "Unknown error occurred with error code 13"),
      (14, "Unknown error occurred with error code 14"),
      (15, "Unknown error occurred with error code 15"),
      (16, "Unknown error occurred with error code 16"),
      (17, "Unknown error occurred with error code 17"),
      (18, "Unknown error occurred with error code 18"),
      (19, "Unknown error occurred with error code 19"),
      (20, "Unknown error occurred with error code 20"),
      (21, "Unknown error occurred with error code 21"),
      (22, "Unknown error occurred with error code 22"),
      (23, "Unknown error occurred with error code 23"),
      (24, "Unknown error occurred with error code 24"),
      (25, "Unknown error occurred with error code 25")],
    "Unknown error occurred with error code " ++ Nat.repr p.1 = p.2 := by
  decide

set_option maxRecDepth 100000 in
theorem errorMsg_table : ∀ p ∈ [(ERROR_FILE_NOT_FOUND, "The specified file was not found."),
      (ERROR_PATH_NOT_FOUND, "The specified path was not found."),
      (SE_ERR_ACCESSDENIED, "The operating system denied access to the specified file."),
      (SE_ERR_OOM, "There was not enough memory to complete the operation."),
      (ERROR_BAD_FORMAT, "The .exe file is invalid (non-Win32 .exe or error in .exe image)."),
      (SE_ERR_SHARE, "A sharing violation occurred."),
      (SE_ERR_ASSOCINCOMPLETE, "The file name association is incomplete or invalid."),
      (SE_ERR_DDETIMEOUT, "The DDE transaction could not be completed because the request timed out."),
      (SE_ERR_DDEFAIL, "The DDE transaction failed."),
      (SE_ERR_DDEBUSY, "The DDE transaction could not be completed because other DDE transactions were being processed."),
      (SE_ERR_NOASSOC, "There is no application associated with the given file name extension. This error will also be returned if you attempt to print a file that is not printable."),
      (SE_ERR_DLLNOTFOUND, "The specified DLL was not found.")],
    errorMsg p.1 p.1.toNat = p.2 ∧ 0 < p.1 ∧ p.1 ≤ 32 := by
  decide


theorem unknown_msgs_distinct : ∀ n < 33, ∀ m < 33, n ≠ m →
    "Unknown error occurred with error code " ++ Nat.repr n
      ≠ "Unknown error occurred with error code " ++ Nat.repr m := by
  decide


/-! ## `DragQueryFile` against the model of the native call -/

/-- What `UTF16ToString` reads from a buffer holding code units without NUL
followed by a NUL: the string of all of those units. -/
theorem UTF16ToString_terminated (name rest : List Nat) (hn : 0 ∉ name) :
    UTF16ToString (name ++ 0 :: rest) = runesToString (utf16Decode name) := by
  rw [UTF16ToString, takeWhile_nul _ _ hn]

/-- What the modelled native call stores for a name that fits the buffer: the
whole name and a terminating NUL. -/
theorem store_dropNative (names : List (List Nat)) (hDrop iFile : Nat) (name : List Nat)
    (hi : names[iFile]? = some name) (hs : iFile ≠ 0xFFFFFFFF) :
    store (List.replicate (name.length + 1) 0)
        (dropNative names () [Arg.word hDrop, Arg.word iFile,
          Arg.ptr (List.replicate (name.length + 1) 0), Arg.word (name.length + 1)]).1.mem
      = name ++ [0] := by
  have htake : List.take (name.length + 1) (name ++ [0]) = name ++ [0] :=
    List.take_of_length_le (by simp)
  simp [dropNative, hs, hi, store, htake]

/-- The run of `DragQueryFile` on a valid index of a modelled drop. -/
theorem DragQueryFile_dropNative (a : Arch) (alloc : Nat → Bool) (names : List (List Nat))
    (hDrop iFile : Nat) (name : List Nat)
    (hi : names[iFile]? = some name) (hs : iFile ≠ 0xFFFFFFFF)
    (hn : 0 ∉ name) (hne : name ≠ [])
    (hwrap : name.length + 1 < 2 ^ a.bits)
    (halloc : alloc (name.length + 1) = true) :
    DragQueryFile a alloc (dropNative names) () hDrop iFile
      = ⟨[([Arg.word hDrop, Arg.word iFile, Arg.word 0, Arg.word 0], name.length),
          ([Arg.word hDrop, Arg.word iFile,
            Arg.ptr (List.replicate (name.length + 1) 0),
            Arg.word (name.length + 1)], name.length)],
        .ok (runesToString (utf16Decode name), name.length)⟩ := by
  have hpos : name.length ≠ 0 := fun e => hne (List.length_eq_zero.mp e)
  have hmod : (name.length + 1) % 2 ^ a.bits = name.length + 1 :=
    Nat.mod_eq_of_lt hwrap
  have hread : UTF16ToString (name ++ [0]) = runesToString (utf16Decode name) :=
    UTF16ToString_terminated name [] hn
  simp only [DragQueryFile, dropNative, hs, hi, hmod, halloc, ne_eq, not_false_eq_true,
    if_true, if_false, Nat.add_one_ne_zero, Nat.add_sub_cancel, and_false,
    Nat.min_self, hpos, hread, Bool.true_eq_false]
  have htake : List.take (name.length + 1) (name ++ [0]) = name ++ [0] :=
    List.take_of_length_le (by simp)
  simp [store, hread, htake]

/-- The wide form of a valid string without NUL decodes to that string. -/
theorem decode_wideName (f : GoString) (hv : validString f = true) :
    runesToString (utf16Decode (wideName f)) = f := by
  obtain ⟨h1, h2⟩ := stringToRunes_valid f hv
  rw [wideName, utf16Decode_utf16Encode _ h2, h1]

/-! ## Claims about `ShellExecute` -/

/-- C1: whenever `ShellExecute` reaches the native call and that call returns
`ret`, the returned error depends on `ret` alone: it is `nil` exactly when
`ret = 0` or `ret > 32`, and a non-nil error exactly when `1 ≤ ret ≤ 32`,
whatever the handle, the strings and the show command are. -/
theorem ShellExecute_error_iff_ret (a : Arch) (native : List Arg → Nat) (hwnd : Nat)
    (lpOperation lpFile lpParameters lpDirectory : GoString) (nShowCmd : Int)
    (args : List Arg) (ret : Nat)
    (hcall : (ShellExecute a native hwnd lpOperation lpFile lpParameters lpDirectory
      nShowCmd).calls = [(args, ret)]) :
    ((ShellExecute a native hwnd lpOperation lpFile lpParameters lpDirectory
        nShowCmd).result = .ok none ↔ ret = 0 ∨ 32 < ret) ∧
    ((∃ msg, (ShellExecute a native hwnd lpOperation lpFile lpParameters lpDirectory
        nShowCmd).result = .ok (some msg)) ↔ 1 ≤ ret ∧ ret ≤ 32) := by
  rw [ShellExecute_of_call a native hwnd _ _ _ _ nShowCmd args ret hcall]
  by_cases c : ret ≠ 0 ∧ ret ≤ 32
  · rw [if_pos c]
    refine ⟨⟨fun h => ?_, fun h => ?_⟩, ⟨fun _ => ?_, fun _ => ⟨_, rfl⟩⟩⟩
    · simp at h
    · omega
    · omega
  · rw [if_neg c]
    refine ⟨⟨fun _ => ?_, fun _ => rfl⟩, ⟨fun h => ?_, fun h => ?_⟩⟩
    · omega
    · obtain ⟨msg, h⟩ := h
      simp at h
    · omega

theorem ShellExecute_error_iff_ret_witness :
    (ShellExecute .amd64 (fun _ => 5) 7 [] [0x61] [] [] 1).calls
        = [([Arg.word 7, Arg.word 0, Arg.ptr [0x61, 0], Arg.word 0, Arg.word 0, Arg.word 1], 5)]
    ∧ (((ShellExecute .amd64 (fun _ => 5) 7 [] [0x61] [] [] 1).result = .ok none
          ↔ 5 = 0 ∨ 32 < 5) ∧
        ((∃ msg, (ShellExecute .amd64 (fun _ => 5) 7 [] [0x61] [] [] 1).result
          = .ok (some msg)) ↔ 1 ≤ 5 ∧ 5 ≤ 32)) :=
  have h : (ShellExecute .amd64 (fun _ => 5) 7 [] [0x61] [] [] 1).calls
      = [([Arg.word 7, Arg.word 0, Arg.ptr [0x61, 0], Arg.word 0, Arg.word 0, Arg.word 1], 5)] := by
    decide
  ⟨h, ShellExecute_error_iff_ret .amd64 (fun _ => 5) 7 [] [0x61] [] [] 1 _ 5 h⟩


/-- C2: whenever the native call returns one of the twelve known pseudo-handle
codes, whose values are 2, 3, 5, 8, 11, 26, 27, 28, 29, 30, 31 and 32,
`ShellExecute` returns the error whose message is the text of the `switch` for
that code. -/
theorem ShellExecute_known_code_message (a : Arch) (native : List Arg → Nat) (hwnd : Nat)
    (lpOperation lpFile lpParameters lpDirectory : GoString) (nShowCmd : Int)
    (args : List Arg) (ret : Nat)
    (hcall : (ShellExecute a native hwnd lpOperation lpFile lpParameters lpDirectory
      nShowCmd).calls = [(args, ret)]) :
    (∀ p ∈ [(ERROR_FILE_NOT_FOUND, "The specified file was not found."),
        (ERROR_PATH_NOT_FOUND, "The specified path was not found."),
        (SE_ERR_ACCESSDENIED, "The operating system denied access to the specified file."),
        (SE_ERR_OOM, "There was not enough memory to complete the operation."),
        (ERROR_BAD_FORMAT, "The .exe file is invalid (non-Win32 .exe or error in .exe image)."),
        (SE_ERR_SHARE, "A sharing violation occurred."),
        (SE_ERR_ASSOCINCOMPLETE, "The file name association is incomplete or invalid."),
        (SE_ERR_DDETIMEOUT, "The DDE transaction could not be completed because the request timed out."),
        (SE_ERR_DDEFAIL, "The DDE transaction failed."),
        (SE_ERR_DDEBUSY, "The DDE transaction could not be completed because other DDE transactions were being processed."),
        (SE_ERR_NOASSOC, "There is no application associated with the given file name extension. This error will also be returned if you attempt to print a file that is not printable."),
        (SE_ERR_DLLNOTFOUND, "The specified DLL was not found.")],
      (ret : Int) = p.1 →
        (ShellExecute a native hwnd lpOperation lpFile lpParameters lpDirectory
          nShowCmd).result = .ok (some p.2)) ∧
    [ERROR_FILE_NOT_FOUND, ERROR_PATH_NOT_FOUND, SE_ERR_ACCESSDENIED, SE_ERR_OOM,
      ERROR_BAD_FORMAT, SE_ERR_SHARE, SE_ERR_ASSOCINCOMPLETE, SE_ERR_DDETIMEOUT, SE_ERR_DDEFAIL,
      SE_ERR_DDEBUSY, SE_ERR_NOASSOC, SE_ERR_DLLNOTFOUND]
      = [2, 3, 5, 8, 11, 26, 27, 28, 29, 30, 31, 32] := by
  refine ⟨?_, by decide⟩
  intro p hp hret
  obtain ⟨h1, h2, h3⟩ := errorMsg_table p hp
  have e : p.1.toNat = ret := by omega
  rw [ShellExecute_of_call a native hwnd _ _ _ _ nShowCmd args ret hcall,
    if_pos ⟨by omega, by omega⟩, uintptrToInt_small a _ (by omega), hret, ← h1, e]

theorem ShellExecute_known_code_message_witness :
    (ShellExecute .i386 (fun _ => 31) 7 [0x6F] [0x61] [] [] 1).calls
        = [([Arg.word 7, Arg.ptr [0x6F, 0], Arg.ptr [0x61, 0], Arg.word 0, Arg.word 0,
            Arg.word 1], 31)]
    ∧ (ShellExecute .i386 (fun _ => 31) 7 [0x6F] [0x61] [] [] 1).result
        = .ok (some "There is no application associated with the given file name extension. This error will also be returned if you attempt to print a file that is not printable.") :=
  have h : (ShellExecute .i386 (fun _ => 31) 7 [0x6F] [0x61] [] [] 1).calls
      = [([Arg.word 7, Arg.ptr [0x6F, 0], Arg.ptr [0x61, 0], Arg.word 0, Arg.word 0,
          Arg.word 1], 31)] := by
    decide
  ⟨h, (ShellExecute_known_code_message .i386 (fun _ => 31) 7 [0x6F] [0x61] [] [] 1 _ 31
    h).1 (SE_ERR_NOASSOC, _) (by simp) rfl⟩

/-- C3: whenever the native call returns a value `ret` with `1 ≤ ret ≤ 32` that
is not one of the twelve known codes, `ShellExecute` returns the error
"Unknown error occurred with error code N" with `N` the decimal form of `ret`
(listed for each of the twenty such values), and two different unknown codes
give two different errors. -/
theorem ShellExecute_unknown_code_message (a : Arch) (native : List Arg → Nat) (hwnd : Nat)
    (lpOperation lpFile lpParameters lpDirectory : GoString) (nShowCmd : Int)
    (args : List Arg) (ret : Nat)
    (hcall : (ShellExecute a native hwnd lpOperation lpFile lpParameters lpDirectory
      nShowCmd).calls = [(args, ret)])
    (hrange : 1 ≤ ret ∧ ret ≤ 32)
    (hunknown : ret ∉ [2, 3, 5, 8, 11, 26, 27, 28, 29, 30, 31, 32]) :
    (ShellExecute a native hwnd lpOperation lpFile lpParameters lpDirectory nShowCmd).result
        = .ok (some ("Unknown error occurred with error code " ++ Nat.repr ret)) ∧
    (∀ p ∈ [((1 : Nat), "Unknown error occurred with error code 1"),
        (4, "Unknown error occurred with error code 4"),
        (6, "Unknown error occurred with error code 6"),
        (7, "Unknown error occurred with error code 7"),
        (9, "Unknown error occurred with error code 9"),
        (10, "Unknown error occurred with error code 10"),
        (12, "Unknown error occurred with error code 12"),
        (13, "Unknown error occurred with error code 13"),
        (14, "Unknown error occurred with error code 14"),
        (15, "Unknown error occurred with error code 15"),
        (16, "Unknown error occurred with error code 16"),
        (17, "Unknown error occurred with error code 17"),
        (18, "Unknown error occurred with error code 18"),
        (19, "Unknown error occurred with error code 19"),
        (20, "Unknown error occurred with error code 20"),
        (21, "Unknown error occurred with error code 21"),
        (22, "Unknown error occurred with error code 22"),
        (23, "Unknown error occurred with error code 23"),
        (24, "Unknown error occurred with error code 24"),
        (25, "Unknown error occurred with error code 25")],
      ret = p.1 →
        (ShellExecute a native hwnd lpOperation lpFile lpParameters lpDirectory
          nShowCmd).result = .ok (some p.2)) ∧
    (∀ (a' : Arch) (native' : List Arg → Nat) (hwnd' : Nat)
        (lpOperation' lpFile' lpParameters' lpDirectory' : GoString) (nShowCmd' : Int)
        (args' : List Arg) (ret' : Nat),
      (ShellExecute a' native' hwnd' lpOperation' lpFile' lpParameters' lpDirectory'
        nShowCmd').calls = [(args', ret')] →
      1 ≤ ret' ∧ ret' ≤ 32 →
      ret' ∉ [2, 3, 5, 8, 11, 26, 27, 28, 29, 30, 31, 32] →
      ret' ≠ ret →
      (ShellExecute a' native' hwnd' lpOperation' lpFile' lpParameters' lpDirectory'
          nShowCmd').result
        ≠ (ShellExecute a native hwnd lpOperation lpFile lpParameters lpDirectory
          nShowCmd).result) := by
  have key : ∀ (b : Arch) (nat : List Arg → Nat) (hw : Nat) (o f p d : GoString) (sc : Int)
      (ar : List Arg) (r : Nat), (ShellExecute b nat hw o f p d sc).calls = [(ar, r)] →
      1 ≤ r ∧ r ≤ 32 → r ∉ [2, 3, 5, 8, 11, 26, 27, 28, 29, 30, 31, 32] →
      (ShellExecute b nat hw o f p d sc).result
        = .ok (some ("Unknown error occurred with error code " ++ Nat.repr r)) := by
    intro b nat hw o f p d sc ar r hc hr hu
    rw [ShellExecute_of_call b nat hw _ _ _ _ sc ar r hc, if_pos ⟨by omega, hr.2⟩,
      uintptrToInt_small b _ hr.2, errorMsg_unknown r hu]
  have h0 := key a native hwnd _ _ _ _ nShowCmd args ret hcall hrange hunknown
  refine ⟨h0, ?_, ?_⟩
  · intro p hp hret
    rw [h0, hret, unknown_msgs_table p hp]
  · intro a' native' hwnd' o' f' p' d' sc' args' ret' hc' hr' hu' hne
    rw [h0, key a' native' hwnd' _ _ _ _ sc' args' ret' hc' hr' hu']
    intro e
    simp only [Result.ok.injEq, Option.some.injEq] at e
    exact unknown_msgs_distinct ret' (by omega) ret (by omega) hne e

theorem ShellExecute_unknown_code_message_witness :
    (ShellExecute .amd64 (fun _ => 17) 7 [] [0x61] [] [] 1).calls
        = [([Arg.word 7, Arg.word 0, Arg.ptr [0x61, 0], Arg.word 0, Arg.word 0, Arg.word 1], 17)]
    ∧ (1 ≤ 17 ∧ 17 ≤ 32) ∧ 17 ∉ [2, 3, 5, 8, 11, 26, 27, 28, 29, 30, 31, 32]
    ∧ (ShellExecute .amd64 (fun _ => 17) 7 [] [0x61] [] [] 1).result
        = .ok (some "Unknown error occurred with error code 17") :=
  have h : (ShellExecute .amd64 (fun _ => 17) 7 [] [0x61] [] [] 1).calls
      = [([Arg.word 7, Arg.word 0, Arg.ptr [0x61, 0], Arg.word 0, Arg.word 0, Arg.word 1], 17)] := by
    decide
  ⟨h, by decide, by decide,
    (ShellExecute_unknown_code_message .amd64 (fun _ => 17) 7 [] [0x61] [] [] 1 _ 17 h
      (by decide) (by decide)).2.1 (17, _) (by simp) rfl⟩

/-- C4: on strings without NUL byte, `ShellExecute` makes one native call whose
argument list is `hwnd`, the operation, the file, the parameters, the directory
and `nShowCmd`. Each of the three optional strings is the null pointer exactly
when it is empty and otherwise a pointer to its wide form followed by a NUL,
each decided from that string alone; the file is always a pointer to its wide
form followed by a NUL; no wide form contains a NUL; `hwnd` is passed as it is
and `nShowCmd` with its bits unchanged. -/
theorem ShellExecute_marshalling (a : Arch) (native : List Arg → Nat) (hwnd : Nat)
    (lpOperation lpFile lpParameters lpDirectory : GoString) (nShowCmd : Int)
    (hnul : 0 ∉ lpOperation ∧ 0 ∉ lpFile ∧ 0 ∉ lpParameters ∧ 0 ∉ lpDirectory)
    (hint : -(2 ^ (a.bits - 1) : Int) ≤ nShowCmd ∧ nShowCmd < (2 ^ (a.bits - 1) : Int)) :
    ∃ op param directory args,
      args = [Arg.word hwnd, op, Arg.ptr (wideName lpFile ++ [0]), param, directory,
        Arg.word (intToUintptr a nShowCmd)] ∧
      (ShellExecute a native hwnd lpOperation lpFile lpParameters lpDirectory nShowCmd).calls
        = [(args, native args)] ∧
      (op = Arg.word 0 ↔ lpOperation = []) ∧
      (lpOperation ≠ [] → op = Arg.ptr (wideName lpOperation ++ [0])) ∧
      (param = Arg.word 0 ↔ lpParameters = []) ∧
      (lpParameters ≠ [] → param = Arg.ptr (wideName lpParameters ++ [0])) ∧
      (directory = Arg.word 0 ↔ lpDirectory = []) ∧
      (lpDirectory ≠ [] → directory = Arg.ptr (wideName lpDirectory ++ [0])) ∧
      0 ∉ wideName lpOperation ∧ 0 ∉ wideName lpFile ∧ 0 ∉ wideName lpParameters ∧
      0 ∉ wideName lpDirectory ∧
      uintptrToInt a (intToUintptr a nShowCmd) = nShowCmd ∧
      (0 ≤ nShowCmd → (intToUintptr a nShowCmd : Int) = nShowCmd) := by
  have opt : ∀ s : GoString,
      ((if s = [] then Arg.word 0 else Arg.ptr (wideName s ++ [0])) = Arg.word 0 ↔ s = []) ∧
      (s ≠ [] → (if s = [] then Arg.word 0 else Arg.ptr (wideName s ++ [0]))
        = Arg.ptr (wideName s ++ [0])) := by
    intro s
    by_cases hs : s = []
    · simp [hs]
    · simp [hs]
  have hrun := ShellExecute_run a native hwnd _ _ _ _ nShowCmd hnul _ rfl
  refine ⟨_, _, _, _, rfl, ?_, (opt lpOperation).1, (opt lpOperation).2, (opt lpParameters).1,
    (opt lpParameters).2, (opt lpDirectory).1, (opt lpDirectory).2,
    wideName_ne_zero _ hnul.1, wideName_ne_zero _ hnul.2.1, wideName_ne_zero _ hnul.2.2.1,
    wideName_ne_zero _ hnul.2.2.2, int_uintptr_roundtrip a nShowCmd hint, ?_⟩
  · rw [hrun]
    split_ifs <;> rfl
  · intro h0
    cases a <;> simp only [intToUintptr, Arch.bits] at hint ⊢ <;> norm_num at hint ⊢ <;> omega

theorem ShellExecute_marshalling_witness :
    (0 ∉ [0x6F] ∧ 0 ∉ [0x61] ∧ 0 ∉ ([] : GoString) ∧ 0 ∉ [0x64]) ∧
    (-(2 ^ (Arch.amd64.bits - 1) : Int) ≤ 5 ∧ (5 : Int) < (2 ^ (Arch.amd64.bits - 1) : Int)) ∧
    ∃ op param directory args,
      args = [Arg.word 7, op, Arg.ptr (wideName [0x61] ++ [0]), param, directory,
        Arg.word (intToUintptr .amd64 5)] ∧
      (ShellExecute .amd64 (fun _ => 42) 7 [0x6F] [0x61] [] [0x64] 5).calls
        = [(args, (fun _ => 42) args)] ∧
      (op = Arg.word 0 ↔ [0x6F] = ([] : GoString)) ∧
      ([0x6F] ≠ ([] : GoString) → op = Arg.ptr (wideName [0x6F] ++ [0])) ∧
      (param = Arg.word 0 ↔ ([] : GoString) = []) ∧
      (([] : GoString) ≠ [] → param = Arg.ptr (wideName [] ++ [0])) ∧
      (directory = Arg.word 0 ↔ [0x64] = ([] : GoString)) ∧
      ([0x64] ≠ ([] : GoString) → directory = Arg.ptr (wideName [0x64] ++ [0])) ∧
      0 ∉ wideName [0x6F] ∧ 0 ∉ wideName [0x61] ∧ 0 ∉ wideName [] ∧
      0 ∉ wideName [0x64] ∧
      uintptrToInt .amd64 (intToUintptr .amd64 5) = 5 ∧
      ((0 : Int) ≤ 5 → (intToUintptr .amd64 5 : Int) = 5) :=
  ⟨by decide, by decide,
    ShellExecute_marshalling .amd64 (fun _ => 42) 7 [0x6F] [0x61] [] [0x64] 5 (by decide)
      (by decide)⟩

/-! ## Claims about `DragQueryFile` -/

/-- C5: with the sentinel index `0xFFFFFFFF`, `DragQueryFile` makes exactly one
native call, with a null buffer and capacity 0, makes no retrieval call, does
not panic, and returns the empty name together with the return value of that
call as `fileCount`, whatever the handle and the native entry point are. -/
theorem DragQueryFile_sentinel {σ : Type} (a : Arch) (alloc : Nat → Bool)
    (native : σ → List Arg → Reply × σ) (st : σ) (hDrop : Nat) :
    DragQueryFile a alloc native st hDrop 0xFFFFFFFF
      = ⟨[([Arg.word hDrop, Arg.word 0xFFFFFFFF, Arg.word 0, Arg.word 0],
            (native st [Arg.word hDrop, Arg.word 0xFFFFFFFF, Arg.word 0, Arg.word 0]).1.ret)],
          .ok ([], (native st
            [Arg.word hDrop, Arg.word 0xFFFFFFFF, Arg.word 0, Arg.word 0]).1.ret)⟩ := by
  simp [DragQueryFile]

/-- C6: the code at the failing input. For a drop of one file named "abc", so
that the count of dropped files is 1, `DragQueryFile` with index 0 makes the
length query and the retrieval call and returns the name together with
`fileCount = 3`, the length of the name, where the count 1 is expected; for a
drop of the two files "abc" and "de" it again returns 3, not 2. The sentinel
index on the same drops returns the counts 1 and 2. -/
theorem DragQueryFile_index0_returns_length :
    DragQueryFile .amd64 (fun _ => true) (dropNative [wideName [0x61, 0x62, 0x63]]) () 1 0
      = ⟨[([Arg.word 1, Arg.word 0, Arg.word 0, Arg.word 0], 3),
          ([Arg.word 1, Arg.word 0, Arg.ptr [0, 0, 0, 0], Arg.word 4], 3)],
        .ok ([0x61, 0x62, 0x63], 3)⟩ ∧
    [wideName [0x61, 0x62, 0x63]].length = 1 ∧
    (DragQueryFile .amd64 (fun _ => true) (dropNative [wideName [0x61, 0x62, 0x63]]) () 1
        0xFFFFFFFF).result = .ok ([], 1) ∧
    (DragQueryFile .i386 (fun _ => true)
        (dropNative [wideName [0x61, 0x62, 0x63], wideName [0x64, 0x65]]) () 1 0).result
      = .ok ([0x61, 0x62, 0x63], 3) ∧
    (DragQueryFile .i386 (fun _ => true)
        (dropNative [wideName [0x61, 0x62, 0x63], wideName [0x64, 0x65]]) () 1
        0xFFFFFFFF).result = .ok ([], 2) := by
  decide

/-- C7: for an index other than the sentinel, `DragQueryFile` ends in the panic
"Invoke DragQueryFile error." exactly when the retrieval call, the second
native call, was made and returned 0; when that call returns a non-zero value
the wrapper returns normally, and when it returns 0 no values are returned at
all. The second call, when made, is the retrieval call. In particular, against
the modelled native call, an index out of range and an empty name both end in
that panic. -/
theorem DragQueryFile_panic_iff {σ : Type} (a : Arch) (alloc : Nat → Bool)
    (native : σ → List Arg → Reply × σ) (st : σ) (hDrop iFile : Nat)
    (hs : iFile ≠ 0xFFFFFFFF) :
    ((DragQueryFile a alloc native st hDrop iFile).result = .panic "Invoke DragQueryFile error."
      ↔ ∃ c, (DragQueryFile a alloc native st hDrop iFile).calls[1]? = some c ∧ c.2 = 0) ∧
    (∀ c, (DragQueryFile a alloc native st hDrop iFile).calls[1]? = some c → c.2 ≠ 0 →
      ∃ v, (DragQueryFile a alloc native st hDrop iFile).result = .ok v) ∧
    (∀ c, (DragQueryFile a alloc native st hDrop iFile).calls[1]? = some c → c.2 = 0 →
      ∀ v, (DragQueryFile a alloc native st hDrop iFile).result ≠ .ok v) ∧
    (∀ c, (DragQueryFile a alloc native st hDrop iFile).calls[1]? = some c →
      ∃ n, n ≠ 0 ∧
        c.1 = [Arg.word hDrop, Arg.word iFile, Arg.ptr (List.replicate n 0), Arg.word n]) ∧
    (alloc 1 = true → ∀ names : List (List Nat),
      (names[iFile]? = none ∨ names[iFile]? = some []) →
      (DragQueryFile a alloc (dropNative names) () hDrop iFile).result
        = .panic "Invoke DragQueryFile error.") := by
  refine ⟨?_, ?_, ?_, ?_, ?_⟩
  · simp only [DragQueryFile, hs, ne_eq, not_false_eq_true, if_true]
    split_ifs <;> simp_all
  · simp only [DragQueryFile, hs, ne_eq, not_false_eq_true, if_true]
    split_ifs <;> simp_all
  · simp only [DragQueryFile, hs, ne_eq, not_false_eq_true, if_true]
    split_ifs <;> simp_all
  · simp only [DragQueryFile, hs, ne_eq, not_false_eq_true, if_true]
    split_ifs with h1 h2 h3
    · simp
    · simp
    · intro c hc
      simp only [List.getElem?_cons_succ, List.getElem?_cons_zero, Option.some.injEq] at hc
      subst hc
      exact ⟨_, h2, rfl⟩
    · intro c hc
      simp only [List.getElem?_cons_succ, List.getElem?_cons_zero, Option.some.injEq] at hc
      subst hc
      exact ⟨_, h2, rfl⟩
  · intro h1 names hnames
    have hmod : (0 + 1) % 2 ^ a.bits = 1 := by cases a <;> decide
    rcases hnames with h | h <;>
      simp [DragQueryFile, dropNative, hs, h, hmod, h1]

theorem DragQueryFile_panic_iff_witness :
    (2 : Nat) ≠ 0xFFFFFFFF ∧
    (DragQueryFile .amd64 (fun _ => true) (dropNative [[0x61], [0x62]]) () 9 2).result
      = .panic "Invoke DragQueryFile error." :=
  ⟨by decide, (DragQueryFile_panic_iff .amd64 (fun _ => true) (dropNative [[0x61], [0x62]]) ()
    9 2 (by decide)).2.2.2.2 rfl [[0x61], [0x62]] (Or.inl rfl)⟩

/-- C10: for an index other than the sentinel, let `L` be the value the first
(null-buffer) native call returns, an `uintptr`. Whenever the retrieval call is
made, it is given a zeroed buffer of exactly `L + 1` code units and the capacity
`L + 1`; it is made exactly when `L + 1` is a `uint` and the runtime grants the
buffer. Hence, against the modelled native call and a file whose name has
`L ≥ 1` code units and no NUL, the buffer ends up holding the whole name and a
NUL, the returned name is the string of all `L` units and the second value is
`L`; for the wide form of a valid string the returned name is that string. -/
theorem DragQueryFile_buffer_size {σ : Type} (a : Arch) (alloc : Nat → Bool)
    (native : σ → List Arg → Reply × σ) (st : σ) (hDrop iFile : Nat) (L : Nat)
    (hs : iFile ≠ 0xFFFFFFFF)
    (hL : (native st [Arg.word hDrop, Arg.word iFile, Arg.word 0, Arg.word 0]).1.ret = L)
    (hword : L < 2 ^ a.bits) :
    (∀ c, (DragQueryFile a alloc native st hDrop iFile).calls[1]? = some c →
      c.1 = [Arg.word hDrop, Arg.word iFile, Arg.ptr (List.replicate (L + 1) 0),
        Arg.word (L + 1)]) ∧
    ((∃ ret2, (DragQueryFile a alloc native st hDrop iFile).calls
        = [([Arg.word hDrop, Arg.word iFile, Arg.word 0, Arg.word 0], L),
            ([Arg.word hDrop, Arg.word iFile, Arg.ptr (List.replicate (L + 1) 0),
              Arg.word (L + 1)], ret2)])
      ↔ L + 1 < 2 ^ a.bits ∧ alloc (L + 1) = true) ∧
    (∀ (names : List (List Nat)) (name : List Nat),
      names[iFile]? = some name → 0 ∉ name → 1 ≤ name.length →
      name.length + 1 < 2 ^ a.bits → alloc (name.length + 1) = true →
      store (List.replicate (name.length + 1) 0)
          (dropNative names () [Arg.word hDrop, Arg.word iFile,
            Arg.ptr (List.replicate (name.length + 1) 0), Arg.word (name.length + 1)]).1.mem
        = name ++ [0] ∧
      (DragQueryFile a alloc (dropNative names) () hDrop iFile).result
        = .ok (runesToString (utf16Decode name), name.length)) ∧
    (∀ (names : List (List Nat)) (f : GoString),
      names[iFile]? = some (wideName f) → validString f = true → 0 ∉ f → f ≠ [] →
      (wideName f).length + 1 < 2 ^ a.bits → alloc ((wideName f).length + 1) = true →
      (DragQueryFile a alloc (dropNative names) () hDrop iFile).result
        = .ok (f, (wideName f).length)) := by
  refine ⟨?_, ?_, ?_, ?_⟩
  · by_cases hw : L + 1 < 2 ^ a.bits
    · have hmod : (L + 1) % 2 ^ a.bits = L + 1 := Nat.mod_eq_of_lt hw
      simp only [DragQueryFile, hs, hL, hmod, ne_eq, not_false_eq_true, if_true,
        Nat.add_one_ne_zero, if_false, true_and]
      split_ifs
      · simp
      · intro c hc
        simp only [List.getElem?_cons_succ, List.getElem?_cons_zero, Option.some.injEq] at hc
        subst hc
        rfl
      · intro c hc
        simp only [List.getElem?_cons_succ, List.getElem?_cons_zero, Option.some.injEq] at hc
        subst hc
        rfl
    · have hmod : (L + 1) % 2 ^ a.bits = 0 := by
        have e : L + 1 = 2 ^ a.bits := by omega
        rw [e, Nat.mod_self]
      simp [DragQueryFile, hs, hL, hmod]
  · by_cases hw : L + 1 < 2 ^ a.bits
    · have hmod : (L + 1) % 2 ^ a.bits = L + 1 := Nat.mod_eq_of_lt hw
      simp only [DragQueryFile, hs, hL, hmod, ne_eq, not_false_eq_true, if_true,
        Nat.add_one_ne_zero, if_false, true_and, hw]
      by_cases ha : alloc (L + 1) = true
      · simp only [ha, Bool.true_eq_false, if_false, and_true]
        split_ifs
        · exact ⟨fun _ => trivial, fun _ => ⟨_, rfl⟩⟩
        · exact ⟨fun _ => trivial, fun _ => ⟨_, rfl⟩⟩
      · have ha' : alloc (L + 1) = false := by simpa using ha
        simp [ha']
    · have hmod : (L + 1) % 2 ^ a.bits = 0 := by
        have e : L + 1 = 2 ^ a.bits := by omega
        rw [e, Nat.mod_self]
      simp [DragQueryFile, hs, hL, hmod, hw]
  · intro names name hi hn hlen hwrap halloc
    have hne : name ≠ [] := by
      intro e
      rw [e] at hlen
      simp at hlen
    exact ⟨store_dropNative names hDrop iFile name hi hs, by
      rw [DragQueryFile_dropNative a alloc names hDrop iFile name hi hs hn hne hwrap halloc]⟩
  · intro names f hi hv hn hne hwrap halloc
    rw [DragQueryFile_dropNative a alloc names hDrop iFile _ hi hs (wideName_ne_zero f hn)
      (wideName_ne_nil f hne) hwrap halloc, decode_wideName f hv]

theorem DragQueryFile_buffer_size_witness :
    (0 : Nat) ≠ 0xFFFFFFFF ∧
    (dropNative [[0x61, 0xD800, 0x62]] ()
      [Arg.word 9, Arg.word 0, Arg.word 0, Arg.word 0]).1.ret = 3 ∧
    3 < 2 ^ Arch.i386.bits ∧
    (∀ c, (DragQueryFile .i386 (fun _ => true) (dropNative [[0x61, 0xD800, 0x62]]) ()
        9 0).calls[1]? = some c →
      c.1 = [Arg.word 9, Arg.word 0, Arg.ptr (List.replicate (3 + 1) 0), Arg.word (3 + 1)]) :=
  ⟨by decide, by decide, by decide,
    (DragQueryFile_buffer_size .i386 (fun _ => true) (dropNative [[0x61, 0xD800, 0x62]])
      () 9 0 3 (by decide) (by decide) (by decide)).1⟩

/-! ## `DragQueryPoint` -/

/-- C8: `DragQueryPoint` returns `isClientArea = true` exactly when the native
call returns 1, and `x`, `y` are the fields of the `POINT` as the native call
leaves it, which are 0 and 0 when the call writes nothing. -/
theorem DragQueryPoint_result (native : Nat → POINT → Nat × POINT) (hDrop : Nat) :
    ((DragQueryPoint native hDrop).2.2 = true ↔ (native hDrop ⟨0, 0⟩).1 = 1) ∧
    (DragQueryPoint native hDrop).1 = (native hDrop ⟨0, 0⟩).2.X ∧
    (DragQueryPoint native hDrop).2.1 = (native hDrop ⟨0, 0⟩).2.Y ∧
    ((native hDrop ⟨0, 0⟩).2 = ⟨0, 0⟩ →
      (DragQueryPoint native hDrop).1 = 0 ∧ (DragQueryPoint native hDrop).2.1 = 0) := by
  refine ⟨by simp [DragQueryPoint], rfl, rfl, fun h => ?_⟩
  simp [DragQueryPoint, h]

/-! ## The round trip over the wide-character boundary -/

/-- C9: for every valid UTF-8 string `s` without NUL, `StringToUTF16` gives the
wide form of `s` followed by a NUL, the wide form contains no NUL, and
`UTF16ToString` reads `s` back from that buffer, also when the buffer is longer
than the terminated string. By `validString_runesToString` the strings covered
are the UTF-8 encodings of all sequences of non-zero Unicode scalar values, of
one to four bytes each. -/
theorem UTF16ToString_StringToUTF16 (s : GoString) (hv : validString s = true)
    (hn : 0 ∉ s) :
    ∃ buf, StringToUTF16 s = .ok buf ∧ buf = wideName s ++ [0] ∧ 0 ∉ wideName s ∧
      UTF16ToString buf = s ∧ ∀ rest, UTF16ToString (buf ++ rest) = s := by
  refine ⟨_, StringToUTF16_ok s hn, rfl, wideName_ne_zero s hn,
    UTF16ToString_wideName s [] hv hn, fun rest => ?_⟩
  rw [List.append_assoc]
  exact UTF16ToString_wideName s _ hv hn

theorem UTF16ToString_StringToUTF16_witness :
    validString [0x61, 0xC3, 0xA9, 0xE2, 0x82, 0xAC, 0xF0, 0x9D, 0x84, 0x9E, 0x7A] = true ∧
    0 ∉ [0x61, 0xC3, 0xA9, 0xE2, 0x82, 0xAC, 0xF0, 0x9D, 0x84, 0x9E, 0x7A] ∧
    ∃ buf, StringToUTF16 [0x61, 0xC3, 0xA9, 0xE2, 0x82, 0xAC, 0xF0, 0x9D, 0x84, 0x9E, 0x7A]
        = .ok buf ∧
      buf = wideName [0x61, 0xC3, 0xA9, 0xE2, 0x82, 0xAC, 0xF0, 0x9D, 0x84, 0x9E, 0x7A] ++ [0] ∧
      0 ∉ wideName [0x61, 0xC3, 0xA9, 0xE2, 0x82, 0xAC, 0xF0, 0x9D, 0x84, 0x9E, 0x7A] ∧
      UTF16ToString buf = [0x61, 0xC3, 0xA9, 0xE2, 0x82, 0xAC, 0xF0, 0x9D, 0x84, 0x9E, 0x7A] ∧
      ∀ rest, UTF16ToString (buf ++ rest)
        = [0x61, 0xC3, 0xA9, 0xE2, 0x82, 0xAC, 0xF0, 0x9D, 0x84, 0x9E, 0x7A] :=
  ⟨by decide, by decide,
    UTF16ToString_StringToUTF16 [0x61, 0xC3, 0xA9, 0xE2, 0x82, 0xAC, 0xF0, 0x9D, 0x84, 0x9E, 0x7A]
      (by decide) (by decide)⟩

end W32
